import Mathlib

/-!
The package gabs: path-addressed navigation and mutation of decoded JSON.

A shallow embedding of `gabs.go`.

Go's `interface{}` values holding decoded JSON are modelled by `Value`.  A Go
`map[string]interface{}` is a reference: two values may denote the very same
map, and an assignment `mmap[k] = v` is seen through every one of them.  The
embedding therefore keeps the maps in an explicit `Heap` and a map value is
the address of its map.  Every operation of the source that assigns into a map
takes the heap and returns the new one.

A slice `[]interface{}` is modelled by the list of its elements, and
`append(s, x)` by `s ++ [x]`: that is the slice `append` returns; the backing
array two slices may share, into which `append` writes when there is room, is
not modelled.  The nil map is a value of its own: it reads as
an empty map and an assignment into it panics, so the methods that assign end
in an `Outcome`, returned or panicked.

The methods are embedded twice.  `Container.Search`, `Container.Set` and the
others compute on the heap from the value a Container wraps.  `Method.Search`,
`Method.Set` and the others are the same bodies, statement by statement, on a
pointer receiver in a `Memory` that also holds the Containers, where a body
could assign to any of them; they are proved to agree with the first.

`json.Unmarshal` and `json.Marshal` belong to Go's standard library: they are
parameters of `ParseJson` and `String`.  Where the very output of the encoder
matters, `jsonMarshal` gives it for the values of this package.
-/

namespace Gabs

/-- The dynamic values an `interface{}` holds in this package: `nil` (also the
decoding of JSON `null` and the result of reading a missing map key), the
scalars, slices `[]interface{}`, and maps `map[string]interface{}`: a map made
by `make` or a literal is the address of its contents, and `nilMap` is the nil
map `map[string]interface{}(nil)`, which reads as empty and panics when
assigned into.  The payload of a scalar is never inspected by the package. -/
inductive Value where
  | nil : Value
  | bool (b : Bool) : Value
  | number (n : Int) : Value
  | string (s : String) : Value
  | slice (elems : List Value) : Value
  | map (ref : Nat) : Value
  | nilMap : Value

mutual
/-- Equality of values is decidable. -/
def Value.decEq : (a b : Value) → Decidable (a = b)
  | Value.nil, Value.nil => isTrue rfl
  | Value.nilMap, Value.nilMap => isTrue rfl
  | Value.bool a, Value.bool b =>
    if h : a = b then isTrue (by rw [h]) else isFalse (by intro e; cases e; exact h rfl)
  | Value.number a, Value.number b =>
    if h : a = b then isTrue (by rw [h]) else isFalse (by intro e; cases e; exact h rfl)
  | Value.string a, Value.string b =>
    if h : a = b then isTrue (by rw [h]) else isFalse (by intro e; cases e; exact h rfl)
  | Value.map a, Value.map b =>
    if h : a = b then isTrue (by rw [h]) else isFalse (by intro e; cases e; exact h rfl)
  | Value.slice a, Value.slice b =>
    match Value.decEqList a b with
    | isTrue h => isTrue (by rw [h])
    | isFalse h => isFalse (by intro e; cases e; exact h rfl)
  | Value.nil, Value.bool _ => isFalse (by intro e; cases e)
  | Value.nil, Value.number _ => isFalse (by intro e; cases e)
  | Value.nil, Value.string _ => isFalse (by intro e; cases e)
  | Value.nil, Value.slice _ => isFalse (by intro e; cases e)
  | Value.nil, Value.map _ => isFalse (by intro e; cases e)
  | Value.nil, Value.nilMap => isFalse (by intro e; cases e)
  | Value.bool _, Value.nil => isFalse (by intro e; cases e)
  | Value.bool _, Value.number _ => isFalse (by intro e; cases e)
  | Value.bool _, Value.string _ => isFalse (by intro e; cases e)
  | Value.bool _, Value.slice _ => isFalse (by intro e; cases e)
  | Value.bool _, Value.map _ => isFalse (by intro e; cases e)
  | Value.bool _, Value.nilMap => isFalse (by intro e; cases e)
  | Value.number _, Value.nil => isFalse (by intro e; cases e)
  | Value.number _, Value.bool _ => isFalse (by intro e; cases e)
  | Value.number _, Value.string _ => isFalse (by intro e; cases e)
  | Value.number _, Value.slice _ => isFalse (by intro e; cases e)
  | Value.number _, Value.map _ => isFalse (by intro e; cases e)
  | Value.number _, Value.nilMap => isFalse (by intro e; cases e)
  | Value.string _, Value.nil => isFalse (by intro e; cases e)
  | Value.string _, Value.bool _ => isFalse (by intro e; cases e)
  | Value.string _, Value.number _ => isFalse (by intro e; cases e)
  | Value.string _, Value.slice _ => isFalse (by intro e; cases e)
  | Value.string _, Value.map _ => isFalse (by intro e; cases e)
  | Value.string _, Value.nilMap => isFalse (by intro e; cases e)
  | Value.slice _, Value.nil => isFalse (by intro e; cases e)
  | Value.slice _, Value.bool _ => isFalse (by intro e; cases e)
  | Value.slice _, Value.number _ => isFalse (by intro e; cases e)
  | Value.slice _, Value.string _ => isFalse (by intro e; cases e)
  | Value.slice _, Value.map _ => isFalse (by intro e; cases e)
  | Value.slice _, Value.nilMap => isFalse (by intro e; cases e)
  | Value.map _, Value.nil => isFalse (by intro e; cases e)
  | Value.map _, Value.bool _ => isFalse (by intro e; cases e)
  | Value.map _, Value.number _ => isFalse (by intro e; cases e)
  | Value.map _, Value.string _ => isFalse (by intro e; cases e)
  | Value.map _, Value.slice _ => isFalse (by intro e; cases e)
  | Value.map _, Value.nilMap => isFalse (by intro e; cases e)
  | Value.nilMap, Value.nil => isFalse (by intro e; cases e)
  | Value.nilMap, Value.bool _ => isFalse (by intro e; cases e)
  | Value.nilMap, Value.number _ => isFalse (by intro e; cases e)
  | Value.nilMap, Value.string _ => isFalse (by intro e; cases e)
  | Value.nilMap, Value.slice _ => isFalse (by intro e; cases e)
  | Value.nilMap, Value.map _ => isFalse (by intro e; cases e)
/-- Equality of lists of values is decidable. -/
def Value.decEqList : (a b : List Value) → Decidable (a = b)
  | [], [] => isTrue rfl
  | [], _ :: _ => isFalse (by intro e; cases e)
  | _ :: _, [] => isFalse (by intro e; cases e)
  | x :: xs, y :: ys =>
    match Value.decEq x y, Value.decEqList xs ys with
    | isTrue h1, isTrue h2 => isTrue (by rw [h1, h2])
    | isFalse h1, _ => isFalse (by intro e; cases e; exact h1 rfl)
    | _, isFalse h2 => isFalse (by intro e; cases e; exact h2 rfl)
end

instance : DecidableEq Value := Value.decEq

/-- How a call ends: it returns, or the Go run time panics in it. -/
inductive Outcome (α : Type) where
  | returned (value : α) : Outcome α
  | panicked (msg : String) : Outcome α
  deriving DecidableEq

/-- The contents of one `map[string]interface{}`: its entries. -/
abbrev Obj := List (String × Value)

/-- The Go read `mmap[k]`: the stored value, or `nil` when the key is missing. -/
def Obj.get : Obj → String → Value
  | [], _ => Value.nil
  | (k', v) :: m, k => if k' = k then v else Obj.get m k

/-- The Go assignment `mmap[k] = v`: replaces the entry of `k`, or adds one. -/
def Obj.set : Obj → String → Value → Obj
  | [], k, v => [(k, v)]
  | (k', v') :: m, k, v => if k' = k then (k, v) :: m else (k', v') :: Obj.set m k v

/-- The maps that exist, by address; `next` is the first address never handed
out, where the next map literal is allocated. -/
structure Heap where
  maps : Nat → Obj
  next : Nat

/-- The heap after `mmap[k] = v` on the map at address `r`. -/
def Heap.assign (h : Heap) (r : Nat) (k : String) (v : Value) : Heap :=
  ⟨fun a => if a = r then Obj.set (h.maps r) k v else h.maps a, h.next⟩

/-- The map literal `map[string]interface{}{}`: a new empty map at a fresh
address. -/
def Heap.alloc (h : Heap) : Heap × Nat :=
  (⟨fun a => if a = h.next then [] else h.maps a, h.next + 1⟩, h.next)

/-- Container of gabs.go: `type Container struct { object interface{} }`.  The
field is assigned once, when the container is made. -/
structure Container where
  object : Value
  deriving DecidableEq

/-- The loop of `Search`: at each key, a map is replaced by `mmap[key]` (which
is `nil` on the nil map) and anything else ends the search with `nil`; with no
keys left the current value is the result. -/
def searchLoop (h : Heap) : Value → List String → Value
  | object, [] => object
  | Value.map r, k :: ks => searchLoop h (Obj.get (h.maps r) k) ks
  | Value.nilMap, _ :: ks => searchLoop h Value.nil ks
  | _, _ :: _ => Value.nil

/-- Search of gabs.go (lines 44-57). -/
def Container.Search (h : Heap) (g : Container) (hierarchy : List String) : Container :=
  ⟨searchLoop h g.object hierarchy⟩

/-- S of gabs.go: shorthand for `Search`. -/
def Container.S (h : Heap) (g : Container) (hierarchy : List String) : Container :=
  g.Search h hierarchy

/-- Data of gabs.go (lines 69-71). -/
def Container.Data (g : Container) : Value := g.object

/-- Set of gabs.go (lines 77-92).  The result is the heap afterwards and how
the call ended: the error returned (`none` for Go's `nil` error), or the panic
of the assignment at line 86 when the parent is the nil map. -/
def Container.Set (h : Heap) (g : Container) (value : Value) (hierarchy : List String) :
    Heap × Outcome (Option String) :=
  let nParents := hierarchy.length
  if nParents ≤ 0 then
    (h, Outcome.returned (some "must specify at least one target parent"))
  else
    let parent := (g.Search h (hierarchy.take (nParents - 1))).Data
    match parent with
    | Value.map r =>
      (h.assign r (hierarchy.getD (nParents - 1) "") value, Outcome.returned none)
    | Value.nilMap => (h, Outcome.panicked "assignment to entry in nil map")
    | _ => (h, Outcome.returned (some "target object was not found in structure"))

/-- Push of gabs.go (lines 97-117).  It assigns only after reading an Array at
the target, which the nil map never holds, so it does not panic. -/
def Container.Push (h : Heap) (g : Container) (value : Value) (hierarchy : List String) :
    Heap × Option String :=
  let nParents := hierarchy.length
  if nParents ≤ 0 then
    (h, some "must specify at least one target parent")
  else
    let parent := (g.Search h (hierarchy.take (nParents - 1))).Data
    match parent with
    | Value.map r =>
      let target := Obj.get (h.maps r) (hierarchy.getD (nParents - 1) "")
      match target with
      | Value.slice array =>
        (h.assign r (hierarchy.getD (nParents - 1) "") (Value.slice (array ++ [value])), none)
      | _ => (h, some "target object was not an array")
    | Value.nilMap => (h, some "target object was not an array")
    | _ => (h, some "target object was not found in structure")

/-- CreateObject of gabs.go (lines 122-129): the new map is allocated, stored
under `name`, and the container returned wraps what is then read at `name`.
On the nil map the new map is allocated and the assignment at line 124 panics. -/
def Container.CreateObject (h : Heap) (g : Container) (name : String) :
    Heap × Outcome Container :=
  match g.Data with
  | Value.map r =>
    let fresh := h.alloc
    let h1 := fresh.1.assign r name (Value.map fresh.2)
    (h1, Outcome.returned ⟨Obj.get (h1.maps r) name⟩)
  | Value.nilMap => (h.alloc.1, Outcome.panicked "assignment to entry in nil map")
  | _ => (h, Outcome.returned ⟨Value.nil⟩)

/-- C of gabs.go: shorthand for `CreateObject`. -/
def Container.C (h : Heap) (g : Container) (name : String) : Heap × Outcome Container :=
  g.CreateObject h name

/-- CreateArray of gabs.go (lines 141-147).  On the nil map the assignment at
line 143 panics. -/
def Container.CreateArray (h : Heap) (g : Container) (name : String) :
    Heap × Outcome (Option String) :=
  match g.Data with
  | Value.map r => (h.assign r name (Value.slice []), Outcome.returned none)
  | Value.nilMap => (h, Outcome.panicked "assignment to entry in nil map")
  | _ => (h, Outcome.returned (some "container was not a valid object"))

/-- A of gabs.go: shorthand for `CreateArray`. -/
def Container.A (h : Heap) (g : Container) (name : String) :
    Heap × Outcome (Option String) :=
  g.CreateArray h name

/-- ParseJson of gabs.go (lines 169-181).  `unmarshal` is `json.Unmarshal` into
an `interface{}`: on the bytes it gives an error, or the decoded value together
with the heap holding the maps it built. -/
def ParseJson (unmarshal : List Nat → Except String (Heap × Value)) (sample : List Nat) :
    Except String (Heap × Container) :=
  match unmarshal sample with
  | Except.error err => Except.error err
  | Except.ok (h, object) =>
    match object with
    | Value.map r => Except.ok (h, ⟨Value.map r⟩)
    | Value.nilMap => Except.ok (h, ⟨Value.nilMap⟩)
    | _ => Except.error "json appears to contain no data."

/-- String of gabs.go (lines 159-164).  `marshal` is `json.Marshal`: on a value
(and the heap holding its maps) it gives an error or the encoding; Go's
`string(bytes)` keeps the bytes, and both are modelled by a string. -/
def Container.String (marshal : Heap → Value → Except String String) (h : Heap)
    (g : Container) : String :=
  match marshal h g.object with
  | Except.ok bytes => bytes
  | Except.error _ => "\x7b\x7d"

/-! ## Client programs -/

/-- One call of a client program on the handles it holds, each named by its
position in the list of handles; the values passed are arbitrary, so also the
`Data()` of any handle. -/
inductive Call where
  | search (handle : Nat) (hierarchy : List String) : Call
  | data (handle : Nat) : Call
  | set (handle : Nat) (value : Value) (hierarchy : List String) : Call
  | push (handle : Nat) (value : Value) (hierarchy : List String) : Call
  | createObject (handle : Nat) (name : String) : Call
  | createArray (handle : Nat) (name : String) : Call

/-- The state of a client program: the heap and the handles obtained so far,
the root handle first. -/
structure Session where
  heap : Heap
  handles : List Container

/-- The effect of one call: `Search` and `CreateObject` add the handle they
return, the mutating methods replace the heap by the one they return, errors
are dropped and a panic is taken as recovered; a call on a handle the program
does not hold does nothing. -/
def Session.call (s : Session) : Call → Session
  | Call.search i hierarchy =>
    match s.handles[i]? with
    | some g => ⟨s.heap, s.handles ++ [g.Search s.heap hierarchy]⟩
    | none => s
  | Call.data i =>
    match s.handles[i]? with
    | some _ => ⟨s.heap, s.handles⟩
    | none => s
  | Call.set i value hierarchy =>
    match s.handles[i]? with
    | some g => ⟨(g.Set s.heap value hierarchy).1, s.handles⟩
    | none => s
  | Call.push i value hierarchy =>
    match s.handles[i]? with
    | some g => ⟨(g.Push s.heap value hierarchy).1, s.handles⟩
    | none => s
  | Call.createObject i name =>
    match s.handles[i]? with
    | some g =>
      match (g.CreateObject s.heap name).2 with
      | Outcome.returned c => ⟨(g.CreateObject s.heap name).1, s.handles ++ [c]⟩
      | Outcome.panicked _ => ⟨(g.CreateObject s.heap name).1, s.handles⟩
    | none => s
  | Call.createArray i name =>
    match s.handles[i]? with
    | some g => ⟨(g.CreateArray s.heap name).1, s.handles⟩
    | none => s

/-- A finite sequence of calls, one after the other. -/
def Session.run (s : Session) (calls : List Call) : Session :=
  calls.foldl Session.call s

/-! ## The encoder of encoding/json -/

/-- The lower-case hexadecimal digit of a number below 16. -/
def hexDigit (n : Nat) : Char :=
  if n < 10 then Char.ofNat (48 + n) else Char.ofNat (87 + n)

/-- One character of a string as encoding/json writes it between the quotes:
the quote and the backslash behind a backslash, the short forms of newline,
carriage return and tab, the six-character form for the other control
characters (backspace and form feed among them, as before Go 1.22), for the
three characters special in HTML and for the two Unicode line separators, and
every other character as it is. -/
def encodeChar (c : Char) : List Char :=
  if c.toNat = 34 then [Char.ofNat 92, Char.ofNat 34]
  else if c.toNat = 92 then [Char.ofNat 92, Char.ofNat 92]
  else if c.toNat = 10 then [Char.ofNat 92, Char.ofNat 110]
  else if c.toNat = 13 then [Char.ofNat 92, Char.ofNat 114]
  else if c.toNat = 9 then [Char.ofNat 92, Char.ofNat 116]
  else if c.toNat < 32 ∨ c.toNat = 60 ∨ c.toNat = 62 ∨ c.toNat = 38 then
    [Char.ofNat 92, Char.ofNat 117, Char.ofNat 48, Char.ofNat 48,
      hexDigit (c.toNat / 16), hexDigit (c.toNat % 16)]
  else if c.toNat = 8232 then
    [Char.ofNat 92, Char.ofNat 117, Char.ofNat 50, Char.ofNat 48, Char.ofNat 50, Char.ofNat 56]
  else if c.toNat = 8233 then
    [Char.ofNat 92, Char.ofNat 117, Char.ofNat 50, Char.ofNat 48, Char.ofNat 50, Char.ofNat 57]
  else [c]

/-- A string as encoding/json writes it: its characters between two quotes. -/
def encodeString (s : String) : String :=
  String.mk ([Char.ofNat 34] ++ (s.toList.map encodeChar).flatten ++ [Char.ofNat 34])

/-- The order of Go strings, by which encoding/json sorts the keys of a map. -/
def keyLess : List Char → List Char → Bool
  | _, [] => false
  | [], _ :: _ => true
  | a :: as, b :: bs =>
    if a.toNat < b.toNat then true else if b.toNat < a.toNat then false else keyLess as bs

/-- An entry put at its place among entries sorted by key. -/
def insertEntry (e : String × Value) : Obj → Obj
  | [] => [e]
  | e' :: m =>
    if keyLess e.1.toList e'.1.toList then e :: e' :: m else e' :: insertEntry e m

/-- The entries of a map sorted by key, the order in which encoding/json
writes them. -/
def sortEntries : Obj → Obj
  | [] => []
  | e :: m => insertEntry e (sortEntries m)

/-- All the encodings of a list, when none failed. -/
def collect : List (Option String) → Option (List String)
  | [] => some []
  | none :: _ => none
  | some s :: rest =>
    match collect rest with
    | some ss => some (s :: ss)
    | none => none

/-- The encoding of a value the way `json.Marshal` of encoding/json builds it,
down to `depth` levels of nesting (`none` when the value nests deeper, as a
cyclic one does): `null`, also for the nil map, `true` and `false`, a number
(of integer value, the only ones modelled) in decimal, a string between
quotes, a slice between brackets, and a map between braces with its entries
in the order `order` puts them.  encoding/json writes the entries
sorted by key, which is `order = sortEntries`; with `order = id` they come in
the order in which the keys were added to the map. -/
def marshalWith (order : Obj → Obj) (h : Heap) : Nat → Value → Option String
  | 0, _ => none
  | _ + 1, Value.nil => some "null"
  | _ + 1, Value.nilMap => some "null"
  | _ + 1, Value.bool b => some (if b then "true" else "false")
  | _ + 1, Value.number n => some (toString n)
  | _ + 1, Value.string s => some (encodeString s)
  | d + 1, Value.slice elems =>
    (collect (elems.map (marshalWith order h d))).map
      (fun parts => "[" ++ String.intercalate "," parts ++ "]")
  | d + 1, Value.map r =>
    (collect ((order (h.maps r)).map
      (fun e => (marshalWith order h d e.2).map (fun s => encodeString e.1 ++ ":" ++ s)))).map
      (fun parts => "\x7b" ++ String.intercalate "," parts ++ "\x7d")

/-- The function `json.Marshal` as `String` calls it, for values nested at most
`depth` deep: the encoding with sorted keys, or an error. -/
def jsonMarshal (depth : Nat) (h : Heap) (v : Value) : Except String String :=
  match marshalWith sortEntries h depth v with
  | some bytes => Except.ok bytes
  | none => Except.error "json: unsupported value"

/-! ## Specification-side definitions -/

/-- Looking one key up by hand, following the specification's words: defined
when the node is an Object that contains the key, and then the stored value. -/
def lookupKey (h : Heap) (node : Value) (k : String) : Option Value :=
  match node with
  | Value.map r => List.lookup k (h.maps r)
  | _ => none

/-- The value reached by looking the keys of a hierarchy up one after another:
the left fold of `lookupKey` over the hierarchy, starting at the root.  It is
`none` as soon as one step meets a node that is not an Object or an Object
without that step's key. -/
def walkByHand (h : Heap) (root : Value) (hierarchy : List String) : Option Value :=
  List.foldlM (lookupKey h) root hierarchy

/-- Whether the walk of `Search` along the keys, started at `object`, reads the
entry of key `k` in the map at address `p` at one of its steps. -/
def readsEntry (h : Heap) (p : Nat) (k : String) : Value → List String → Bool
  | Value.map r, j :: ks =>
    (decide (r = p) && decide (j = k)) || readsEntry h p k (Obj.get (h.maps r) j) ks
  | _, _ => false

/-- No map that a key path reaches from `root` is reached from itself by a
non-empty key path.  Every tree is acyclic in this sense. -/
def Acyclic (h : Heap) (root : Value) : Prop :=
  ∀ (ks js : List String) (r : Nat),
    searchLoop h root ks = Value.map r → searchLoop h (Value.map r) js = Value.map r → js = []

/-- The heap of the document `{"test":{"value":10},"test2":20}`: the root map
at address 0 and the inner map at address 1. -/
def sampleHeap : Heap :=
  ⟨fun a =>
    if a = 0 then [("test", Value.map 1), ("test2", Value.number 20)]
    else if a = 1 then [("value", Value.number 10)]
    else [], 2⟩

/-- The heap of the document `{}`: one empty map, at address 0. -/
def emptyHeap : Heap := ⟨fun _ => [], 1⟩

/-- Whether the value is an Object: the type assertion
`.(map[string]interface{})` succeeds. -/
def Value.isObject : Value → Bool
  | Value.map _ => true
  | Value.nilMap => true
  | _ => false

/-- Whether the value is an Array: the type assertion `.([]interface{})`
succeeds. -/
def Value.isArray : Value → Bool
  | Value.slice _ => true
  | _ => false

/-- Whether the walk that `Set(v, H)` makes to the parent of its target reads,
on its way, the very entry that `Set` is about to write: the entry of the last
key of `H` in the parent map. -/
def targetReadOnWay (h : Heap) (g : Container) (hierarchy : List String) : Bool :=
  match (g.Search h hierarchy.dropLast).Data with
  | Value.map p => readsEntry h p (hierarchy.getD (hierarchy.length - 1) "") g.object
      hierarchy.dropLast
  | _ => false

/-- The heap after `root.Set(root.Data(), "a")` on the root of the document
`{}`: the root map, at address 0, holds itself under the key `a`. -/
def selfHeap : Heap := (Container.Set emptyHeap ⟨Value.map 0⟩ (Value.map 0) ["a"]).1

/-- The heap of the document `{"list":{"items":[1]},"name":"x"}`: the root map
at address 0 and the inner map at address 1. -/
def arrayHeap : Heap :=
  ⟨fun a =>
    if a = 0 then [("list", Value.map 1), ("name", Value.string "x")]
    else if a = 1 then [("items", Value.slice [Value.number 1])]
    else [], 2⟩

/-- A decoder to run `ParseJson` on: it knows the bytes of `{}` and of `[]`
and rejects everything else. -/
def sampleUnmarshal (sample : List Nat) : Except String (Heap × Value) :=
  if sample = [123, 125] then Except.ok (emptyHeap, Value.map 0)
  else if sample = [91, 93] then Except.ok (⟨fun _ => [], 0⟩, Value.slice [])
  else Except.error "unexpected end of JSON input"

/-- No map is shared: a map that a key path reaches from `root` is reached by
that key path only.  The structures `ParseJson` returns are such trees. -/
def NoSharing (h : Heap) (root : Value) : Prop :=
  ∀ (P Q : List String) (r : Nat),
    searchLoop h root P = Value.map r → searchLoop h root Q = Value.map r → P = Q

/-- The heap of the document `{"x":{"y":{}}}`: the root map at address 0, the
map under `x` at address 1 and the map under `x`, `y` at address 2. -/
def nestedHeap : Heap :=
  ⟨fun a =>
    if a = 0 then [("x", Value.map 1)]
    else if a = 1 then [("y", Value.map 2)]
    else [], 3⟩

/-- The heap after `root.Set(root.Search("test").Data(), "test2")` on
`sampleHeap`: the inner map, at address 1, is held under `test` and under
`test2`. -/
def sharedHeap : Heap :=
  (Container.Set sampleHeap ⟨Value.map 0⟩
    ((Container.mk (Value.map 0)).Search sampleHeap ["test"]).Data ["test2"]).1

/-- The heap after `root.Set(root.Search("x", "y").Data(), "x")` on `nestedHeap`:
the root map holds under `x` the map that was at `x`, `y`. -/
def cutHeap : Heap :=
  (Container.Set nestedHeap ⟨Value.map 0⟩
    ((Container.mk (Value.map 0)).Search nestedHeap ["x", "y"]).Data ["x"]).1

/-- The heap after `root.Set(root.Search("x").Data(), "x", "z")` on `nestedHeap`:
the map at `x` holds itself under `z`. -/
def loopHeap : Heap :=
  (Container.Set nestedHeap ⟨Value.map 0⟩
    ((Container.mk (Value.map 0)).Search nestedHeap ["x"]).Data ["x", "z"]).1

/-- The calls of `TestCreation` after `ParseJson` of `{}`: handle 0 is the root,
handle 1 the one `C("test")` returns and handle 2, `inner`, the one
`C("inner")` returns. -/
def creationCalls : List Call :=
  [Call.createObject 0 "test", Call.createObject 1 "inner",
    Call.set 2 (Value.number 10) ["first"], Call.set 2 (Value.number 20) ["second"],
    Call.createArray 2 "array",
    Call.push 2 (Value.string "first element of the array") ["array"],
    Call.push 2 (Value.number 2) ["array"], Call.push 2 (Value.string "three") ["array"]]

/-- The state after the calls of `TestCreation`, started on the root of `{}`. -/
def creationSession : Session := (Session.mk emptyHeap [⟨Value.map 0⟩]).run creationCalls

/-- The string `TestCreation` expects of `String()` on the root. -/
def creationExpected : String :=
  "\x7b\"test\":\x7b\"inner\":\x7b\"array\":[\"first element of the array\",2,\"three\"],\"first\":10,\"second\":20\x7d\x7d\x7d"

/-- The heap after `root.Set(map[string]interface{}(nil), "m")` on the root of
the document `{}`: the root map, at address 0, holds the nil map under `m`. -/
def nilMapHeap : Heap := (Container.Set emptyHeap ⟨Value.map 0⟩ Value.nilMap ["m"]).1

/-- A heap with a cycle, as `root.Set(root.Search("x").Data(), "x", "x")` leaves
it on the document `{"x":{},"y":{}}`: the map under `x`, at address 1, holds
itself under `x`; the map under `y` is at address 2. -/
def knotHeap : Heap :=
  ⟨fun a =>
    if a = 0 then [("x", Value.map 1), ("y", Value.map 2)]
    else if a = 1 then [("x", Value.map 1)]
    else [], 3⟩

/-- The heap after `root.Set(root.Search("y").Data(), "x", "x", "x")` on
`knotHeap`: the map at `x` now holds the map at `y` under `x`. -/
def untiedHeap : Heap :=
  (Container.Set knotHeap ⟨Value.map 0⟩
    ((Container.mk (Value.map 0)).Search knotHeap ["y"]).Data ["x", "x", "x"]).1

/-! ## The methods as programs on pointers -/

/-- The memory of a running program: the maps, and the Containers allocated so
far.  A `*Container` is the position of its Container in the list: `g.object`
is read there, and an assignment to it would replace the Container there. -/
structure Memory where
  heap : Heap
  containers : List Container

/-- A piece of a Go function body: from the memory it starts in, the memory it
leaves and how it ended. -/
abbrev Prog (α : Type) := Memory → Memory × Outcome α

/-- The statement `return a`, and any expression without effect. -/
def Prog.pure {α : Type} (a : α) : Prog α :=
  fun m => (m, Outcome.returned a)

/-- One statement after another; a panic ends the body. -/
def Prog.bind {α β : Type} (p : Prog α) (f : α → Prog β) : Prog β :=
  fun m =>
    match p m with
    | (m1, Outcome.returned a) => f a m1
    | (m1, Outcome.panicked msg) => (m1, Outcome.panicked msg)

/-- The read `g.object` through the pointer `g`; on a pointer to no Container,
the nil pointer, it panics. -/
def loadObject (g : Nat) : Prog Value :=
  fun m =>
    match m.containers[g]? with
    | some c => (m, Outcome.returned c.object)
    | none => (m, Outcome.panicked "invalid memory address or nil pointer dereference")

/-- The expression `&Container{object}`: a new Container, and the pointer to it. -/
def newContainer (object : Value) : Prog Nat :=
  fun m => (⟨m.heap, m.containers ++ [⟨object⟩]⟩, Outcome.returned m.containers.length)

/-- The read `mmap[k]` of a map; the nil map reads as `nil`. -/
def indexMap (mmap : Value) (k : String) : Prog Value :=
  fun m =>
    match mmap with
    | Value.map r => (m, Outcome.returned (Obj.get (m.heap.maps r) k))
    | _ => (m, Outcome.returned Value.nil)

/-- The assignment `mmap[k] = v` into a map; on the nil map it panics. -/
def assignMap (mmap : Value) (k : String) (v : Value) : Prog Unit :=
  fun m =>
    match mmap with
    | Value.map r => (⟨m.heap.assign r k v, m.containers⟩, Outcome.returned ())
    | _ => (m, Outcome.panicked "assignment to entry in nil map")

/-- The literal `map[string]interface{}{}`. -/
def makeMap : Prog Value :=
  fun m => (⟨m.heap.alloc.1, m.containers⟩, Outcome.returned (Value.map m.heap.alloc.2))

/-- The loop of `Search` (lines 47-54), statement by statement: the type
assertion, then the read of the map. -/
def Method.loop : Value → List String → Prog Value
  | object, [] => Prog.pure object
  | Value.map r, k :: ks =>
    Prog.bind (indexMap (Value.map r) k) (fun v => Method.loop v ks)
  | Value.nilMap, k :: ks =>
    Prog.bind (indexMap Value.nilMap k) (fun v => Method.loop v ks)
  | _, _ :: _ => Prog.pure Value.nil

/-- Search of gabs.go (lines 44-57) on the receiver `g *Container`. -/
def Method.Search (g : Nat) (hierarchy : List String) : Prog Nat :=
  Prog.bind (loadObject g) (fun object =>
  Prog.bind (Method.loop object hierarchy) (fun found =>
  newContainer found))

/-- Data of gabs.go (lines 69-71) on the receiver `g *Container`. -/
def Method.Data (g : Nat) : Prog Value :=
  loadObject g

/-- Set of gabs.go (lines 77-92) on the receiver `g *Container`. -/
def Method.Set (g : Nat) (value : Value) (hierarchy : List String) : Prog (Option String) :=
  if hierarchy.length ≤ 0 then
    Prog.pure (some "must specify at least one target parent")
  else
    Prog.bind (Method.Search g (hierarchy.take (hierarchy.length - 1))) (fun c =>
    Prog.bind (Method.Data c) (fun parent =>
    match parent.isObject with
    | true =>
      Prog.bind (assignMap parent (hierarchy.getD (hierarchy.length - 1) "") value)
        (fun _ => Prog.pure none)
    | false => Prog.pure (some "target object was not found in structure")))

/-- Push of gabs.go (lines 97-117) on the receiver `g *Container`. -/
def Method.Push (g : Nat) (value : Value) (hierarchy : List String) : Prog (Option String) :=
  if hierarchy.length ≤ 0 then
    Prog.pure (some "must specify at least one target parent")
  else
    Prog.bind (Method.Search g (hierarchy.take (hierarchy.length - 1))) (fun c =>
    Prog.bind (Method.Data c) (fun parent =>
    match parent.isObject with
    | true =>
      Prog.bind (indexMap parent (hierarchy.getD (hierarchy.length - 1) "")) (fun target =>
      match target with
      | Value.slice array =>
        Prog.bind
          (assignMap parent (hierarchy.getD (hierarchy.length - 1) "")
            (Value.slice (array ++ [value])))
          (fun _ => Prog.pure none)
      | _ => Prog.pure (some "target object was not an array"))
    | false => Prog.pure (some "target object was not found in structure")))

/-- CreateObject of gabs.go (lines 122-129) on the receiver `g *Container`. -/
def Method.CreateObject (g : Nat) (name : String) : Prog Nat :=
  Prog.bind (Method.Data g) (fun object =>
  match object.isObject with
  | true =>
    Prog.bind makeMap (fun fresh =>
    Prog.bind (assignMap object name fresh) (fun _ =>
    Prog.bind (indexMap object name) (fun stored =>
    newContainer stored)))
  | false => newContainer Value.nil)

/-- CreateArray of gabs.go (lines 141-147) on the receiver `g *Container`. -/
def Method.CreateArray (g : Nat) (name : String) : Prog (Option String) :=
  Prog.bind (Method.Data g) (fun object =>
  match object.isObject with
  | true => Prog.bind (assignMap object name (Value.slice [])) (fun _ => Prog.pure none)
  | false => Prog.pure (some "container was not a valid object"))

/-- One call of a client program, made through a pointer; what the call
returns is dropped. -/
def Method.call : Call → Prog Unit
  | Call.search g hierarchy => Prog.bind (Method.Search g hierarchy) (fun _ => Prog.pure ())
  | Call.data g => Prog.bind (Method.Data g) (fun _ => Prog.pure ())
  | Call.set g value hierarchy =>
    Prog.bind (Method.Set g value hierarchy) (fun _ => Prog.pure ())
  | Call.push g value hierarchy =>
    Prog.bind (Method.Push g value hierarchy) (fun _ => Prog.pure ())
  | Call.createObject g name => Prog.bind (Method.CreateObject g name) (fun _ => Prog.pure ())
  | Call.createArray g name => Prog.bind (Method.CreateArray g name) (fun _ => Prog.pure ())

/-- The memory after a finite sequence of calls, each started in the memory
the one before left, whether it returned or panicked. -/
def Memory.run (m : Memory) (calls : List Call) : Memory :=
  calls.foldl (fun m1 c => (Method.call c m1).1) m

/-- The body leaves the heap as it found it. -/
def Prog.HeapSame {α : Type} (p : Prog α) : Prop :=
  ∀ m, (p m).1.heap = m.heap

/-- The body leaves every Container that exists as it found it. -/
def Prog.Keeps {α : Type} (p : Prog α) : Prop :=
  ∀ m (j : Nat) (c : Container), m.containers[j]? = some c → (p m).1.containers[j]? = some c

/-! ## Maps and the search loop -/

theorem Obj.get_set_same (m : Obj) (k : String) (v : Value) :
    Obj.get (Obj.set m k v) k = v := by
  induction m with
  | nil => simp [Obj.set, Obj.get]
  | cons e m ih =>
    obtain ⟨k', v'⟩ := e
    by_cases hk : k' = k
    · simp [Obj.set, Obj.get, hk]
    · simp [Obj.set, Obj.get, hk, ih]

theorem Obj.get_set_other (m : Obj) (k j : String) (v : Value) (hj : j ≠ k) :
    Obj.get (Obj.set m k v) j = Obj.get m j := by
  induction m with
  | nil =>
    have hkj : ¬ k = j := fun e => hj e.symm
    simp [Obj.set, Obj.get, hkj]
  | cons e m ih =>
    obtain ⟨k', v'⟩ := e
    by_cases hk : k' = k
    · have hkj : ¬ k = j := fun e => hj e.symm
      have hkj' : ¬ k' = j := fun e => hj (e.symm.trans hk)
      simp [Obj.set, Obj.get, hk, hkj]
    · by_cases hkj : k' = j
      · subst hkj
        simp [Obj.set, Obj.get, hk]
      · simp [Obj.set, Obj.get, hk, hkj, ih]

theorem Obj.get_of_lookup (m : Obj) (k : String) (v : Value)
    (hv : List.lookup k m = some v) : Obj.get m k = v := by
  induction m with
  | nil => simp at hv
  | cons e m ih =>
    obtain ⟨k', v'⟩ := e
    by_cases hk : k' = k
    · subst hk
      simp [List.lookup] at hv
      simp [Obj.get, hv]
    · have hb : (k == k') = false := by
        simp only [beq_eq_false_iff_ne, ne_eq]
        exact fun e => hk e.symm
      simp only [List.lookup, hb] at hv
      simp [Obj.get, hk, ih hv]

theorem Obj.get_of_lookup_none (m : Obj) (k : String)
    (hv : List.lookup k m = none) : Obj.get m k = Value.nil := by
  induction m with
  | nil => rfl
  | cons e m ih =>
    obtain ⟨k', v'⟩ := e
    by_cases hk : k' = k
    · subst hk
      simp [List.lookup] at hv
    · have hb : (k == k') = false := by
        simp only [beq_eq_false_iff_ne, ne_eq]
        exact fun e => hk e.symm
      simp only [List.lookup, hb] at hv
      simp [Obj.get, hk, ih hv]

theorem searchLoop_empty (h : Heap) (object : Value) :
    searchLoop h object [] = object := by
  cases object <;> rfl

theorem searchLoop_nil (h : Heap) (ks : List String) :
    searchLoop h Value.nil ks = Value.nil := by
  cases ks <;> rfl

theorem searchLoop_nilMap (h : Heap) (k : String) (ks : List String) :
    searchLoop h Value.nilMap (k :: ks) = Value.nil := by
  simp [searchLoop, searchLoop_nil]

theorem searchLoop_append (h : Heap) (object : Value) (ks js : List String) :
    searchLoop h object (ks ++ js) = searchLoop h (searchLoop h object ks) js := by
  induction ks generalizing object with
  | nil => simp [searchLoop_empty]
  | cons k ks ih =>
    cases object with
    | map r => simpa [searchLoop] using ih _
    | _ => simp [searchLoop, searchLoop_nil]

/-- A search that ends on a map went through maps only: a step from
something that is not a map ends on `nil`. -/
theorem searchLoop_not_map (h : Heap) (object : Value) (k : String) (ks : List String)
    (hobj : ∀ r, object ≠ Value.map r) : searchLoop h object (k :: ks) = Value.nil := by
  cases object with
  | map r => exact absurd rfl (hobj r)
  | nilMap => exact searchLoop_nilMap h k ks
  | _ => rfl

theorem walkByHand_cons (h : Heap) (root : Value) (k : String) (ks : List String) :
    walkByHand h root (k :: ks) = (lookupKey h root k).bind (fun v => walkByHand h v ks) := by
  simp [walkByHand, List.foldlM_cons]

theorem searchLoop_of_walkByHand (h : Heap) (root : Value) (hierarchy : List String)
    (v : Value) (hw : walkByHand h root hierarchy = some v) :
    searchLoop h root hierarchy = v := by
  induction hierarchy generalizing root with
  | nil =>
    simp [walkByHand] at hw
    simp [searchLoop_empty, hw]
  | cons k ks ih =>
    rw [walkByHand_cons] at hw
    cases root with
    | map r =>
      cases hl : List.lookup k (h.maps r) with
      | none => simp [lookupKey, hl] at hw
      | some w =>
        simp only [lookupKey, hl, Option.bind] at hw
        simp only [searchLoop, Obj.get_of_lookup _ _ _ hl]
        exact ih _ hw
    | _ => simp [lookupKey] at hw

theorem searchLoop_of_walkByHand_none (h : Heap) (root : Value) (hierarchy : List String)
    (hw : walkByHand h root hierarchy = none) :
    searchLoop h root hierarchy = Value.nil := by
  induction hierarchy generalizing root with
  | nil => simp [walkByHand] at hw
  | cons k ks ih =>
    rw [walkByHand_cons] at hw
    cases root with
    | map r =>
      cases hl : List.lookup k (h.maps r) with
      | none =>
        simp only [searchLoop, Obj.get_of_lookup_none _ _ hl]
        exact searchLoop_nil h ks
      | some w =>
        simp only [lookupKey, hl, Option.bind] at hw
        simp only [searchLoop, Obj.get_of_lookup _ _ _ hl]
        exact ih _ hw
    | nilMap => exact searchLoop_nilMap h k ks
    | _ => rfl

/-! ## Search -/

/-- C1: when every key of the hierarchy is found in an Object on the way (the
walk by hand, the left fold of map lookup from the root, is defined and gives
`v`), `Search(H).Data()` is that same value `v`. -/
theorem Search_existing_keys (h : Heap) (g : Container) (hierarchy : List String) (v : Value)
    (hw : walkByHand h g.object hierarchy = some v) :
    (g.Search h hierarchy).Data = v :=
  searchLoop_of_walkByHand h g.object hierarchy v hw

theorem Search_existing_keys_witness :
    walkByHand sampleHeap (Container.mk (Value.map 0)).object ["test", "value"]
        = some (Value.number 10) ∧
      ((Container.mk (Value.map 0)).Search sampleHeap ["test", "value"]).Data
        = Value.number 10 :=
  ⟨by decide, Search_existing_keys sampleHeap ⟨Value.map 0⟩ ["test", "value"] _ (by decide)⟩

/-- C2: when some step of the walk meets a node that is not an Object, or an
Object without that step's key (the walk by hand is undefined),
`Search(H).Data()` is `nil`.  `Search` is a total function returning a
container: it has no error result. -/
theorem Search_missing_key (h : Heap) (g : Container) (hierarchy : List String)
    (hw : walkByHand h g.object hierarchy = none) :
    (g.Search h hierarchy).Data = Value.nil :=
  searchLoop_of_walkByHand_none h g.object hierarchy hw

theorem Search_missing_key_witness :
    walkByHand sampleHeap (Container.mk (Value.map 0)).object ["test2", "value"] = none ∧
      ((Container.mk (Value.map 0)).Search sampleHeap ["test2", "value"]).Data = Value.nil :=
  ⟨by decide, Search_missing_key sampleHeap ⟨Value.map 0⟩ ["test2", "value"] (by decide)⟩

/-! ## Assignment into a map of the heap -/

theorem Heap.assign_maps_same (h : Heap) (r : Nat) (k : String) (v : Value) :
    (h.assign r k v).maps r = Obj.set (h.maps r) k v := by
  simp [Heap.assign]

theorem Heap.assign_maps_other (h : Heap) (r a : Nat) (k : String) (v : Value) (ha : a ≠ r) :
    (h.assign r k v).maps a = h.maps a := by
  simp [Heap.assign, ha]

/-- Reading any entry but the assigned one gives what it gave before. -/
theorem Heap.assign_get_other (h : Heap) (p r : Nat) (k j : String) (w : Value)
    (hne : ¬ (r = p ∧ j = k)) :
    Obj.get ((h.assign p k w).maps r) j = Obj.get (h.maps r) j := by
  by_cases hr : r = p
  · subst hr
    have hj : j ≠ k := fun e => hne ⟨rfl, e⟩
    rw [Heap.assign_maps_same, Obj.get_set_other _ _ _ _ hj]
  · rw [Heap.assign_maps_other _ _ _ _ _ hr]

/-- A walk that does not read the assigned entry is the same walk afterwards. -/
theorem searchLoop_assign_of_not_read (h : Heap) (p : Nat) (k : String) (w : Value)
    (object : Value) (ks : List String) (hread : readsEntry h p k object ks = false) :
    searchLoop (h.assign p k w) object ks = searchLoop h object ks := by
  induction ks generalizing object with
  | nil => simp [searchLoop_empty]
  | cons j ks ih =>
    cases object with
    | map r =>
      simp only [readsEntry, Bool.or_eq_false_iff, Bool.and_eq_false_imp,
        decide_eq_true_eq, decide_eq_false_iff_not] at hread
      have hne : ¬ (r = p ∧ j = k) := fun e => hread.1 e.1 e.2
      simp only [searchLoop, Heap.assign_get_other h p r k j w hne]
      exact ih _ hread.2
    | nilMap => rw [searchLoop_nilMap, searchLoop_nilMap]
    | _ => rfl

/-- A walk that does not read the assigned entry does not read it afterwards
either. -/
theorem readsEntry_assign_of_not_read (h : Heap) (p : Nat) (k : String) (w : Value)
    (object : Value) (ks : List String) (hread : readsEntry h p k object ks = false) :
    readsEntry (h.assign p k w) p k object ks = false := by
  induction ks generalizing object with
  | nil => cases object <;> rfl
  | cons j ks ih =>
    cases object with
    | map r =>
      simp only [readsEntry, Bool.or_eq_false_iff, Bool.and_eq_false_imp,
        decide_eq_true_eq, decide_eq_false_iff_not] at hread
      have hne : ¬ (r = p ∧ j = k) := fun e => hread.1 e.1 e.2
      simp only [readsEntry, Bool.or_eq_false_iff, Bool.and_eq_false_imp,
        decide_eq_true_eq, decide_eq_false_iff_not, Heap.assign_get_other h p r k j w hne]
      exact ⟨hread.1, ih _ hread.2⟩
    | _ => rfl

/-- After `mmap[k] = w` on the map the walk of `ks` ends on, the walk of
`ks ++ [k]` ends on `w`, provided the walk of `ks` does not read that entry. -/
theorem searchLoop_assign_target (h : Heap) (p : Nat) (k : String) (w : Value)
    (object : Value) (ks : List String) (hp : searchLoop h object ks = Value.map p)
    (hread : readsEntry h p k object ks = false) :
    searchLoop (h.assign p k w) object (ks ++ [k]) = w := by
  rw [searchLoop_append, searchLoop_assign_of_not_read h p k w object ks hread, hp]
  simp [searchLoop, Heap.assign_maps_same, Obj.get_set_same, searchLoop_empty]

/-! ## Set -/

theorem Set_empty (h : Heap) (g : Container) (v : Value) :
    g.Set h v [] = (h, Outcome.returned (some "must specify at least one target parent")) := by
  simp [Container.Set]

/-- The body of `Set` on a hierarchy with parent path `ks` and last key `k`. -/
theorem Set_concat (h : Heap) (g : Container) (v : Value) (ks : List String) (k : String) :
    g.Set h v (ks ++ [k]) =
      match searchLoop h g.object ks with
      | Value.map r => (h.assign r k v, Outcome.returned none)
      | Value.nilMap => (h, Outcome.panicked "assignment to entry in nil map")
      | _ => (h, Outcome.returned (some "target object was not found in structure")) := by
  simp [Container.Set, Container.Search, Container.Data]

theorem Set_concat_map (h : Heap) (g : Container) (v : Value) (ks : List String) (k : String)
    (r : Nat) (hp : searchLoop h g.object ks = Value.map r) :
    g.Set h v (ks ++ [k]) = (h.assign r k v, Outcome.returned none) := by
  rw [Set_concat, hp]

theorem Set_concat_not_map (h : Heap) (g : Container) (v : Value) (ks : List String)
    (k : String) (hp : (searchLoop h g.object ks).isObject = false) :
    g.Set h v (ks ++ [k])
      = (h, Outcome.returned (some "target object was not found in structure")) := by
  rw [Set_concat]
  cases hs : searchLoop h g.object ks with
  | map r => simp [hs, Value.isObject] at hp
  | nilMap => simp [hs, Value.isObject] at hp
  | _ => rfl

/-- A non-empty hierarchy is its parent path followed by its last key, the key
`Set` and `Push` index with `hierarchy[nParents-1]`. -/
theorem hierarchy_split (hierarchy : List String) (hne : hierarchy ≠ []) :
    hierarchy = hierarchy.dropLast ++ [hierarchy.getD (hierarchy.length - 1) ""] := by
  have hl := (List.dropLast_append_getLast hne).symm
  have hd : hierarchy.getD (hierarchy.length - 1) "" = hierarchy.getLast hne := by
    conv_lhs => rw [hl]
    simp
  rw [hd]
  exact hl

theorem targetReadOnWay_concat (h : Heap) (g : Container) (ks : List String) (k : String) :
    targetReadOnWay h g (ks ++ [k]) =
      match searchLoop h g.object ks with
      | Value.map p => readsEntry h p k g.object ks
      | _ => false := by
  simp [targetReadOnWay, Container.Search, Container.Data]

/-- A successful `Set` had a non-empty hierarchy whose parent path ends on a
map. -/
theorem Set_ok_inv (h : Heap) (g : Container) (v : Value) (hierarchy : List String)
    (hok : (g.Set h v hierarchy).2 = Outcome.returned none) :
    ∃ ks k p, hierarchy = ks ++ [k] ∧ searchLoop h g.object ks = Value.map p := by
  by_cases hne : hierarchy = []
  · subst hne
    simp [Set_empty] at hok
  · refine ⟨hierarchy.dropLast, hierarchy.getD (hierarchy.length - 1) "", ?_⟩
    have hs := hierarchy_split hierarchy hne
    rw [hs, Set_concat] at hok
    cases hp : searchLoop h g.object hierarchy.dropLast with
    | map p => exact ⟨p, hs, rfl⟩
    | _ => simp [hp] at hok

/-- What `Set` stores is found again, when the walk to the parent does not
read the entry written. -/
theorem Set_concat_then_search (h : Heap) (g : Container) (v : Value) (ks : List String)
    (k : String) (p : Nat) (hp : searchLoop h g.object ks = Value.map p)
    (hread : readsEntry h p k g.object ks = false) :
    (g.Set h v (ks ++ [k])).2 = Outcome.returned none ∧
      searchLoop (g.Set h v (ks ++ [k])).1 g.object (ks ++ [k]) = v ∧
      searchLoop (g.Set h v (ks ++ [k])).1 g.object ks = Value.map p ∧
      readsEntry (g.Set h v (ks ++ [k])).1 p k g.object ks = false := by
  rw [Set_concat_map h g v ks k p hp]
  refine ⟨rfl, searchLoop_assign_target h p k v g.object ks hp hread, ?_, ?_⟩
  · simp only [searchLoop_assign_of_not_read h p k v g.object ks hread, hp]
  · exact readsEntry_assign_of_not_read h p k v g.object ks hread

/-- C3, counterexample: on the root of `{}`, after `root.Set(root.Data(), "a")`
the root map holds itself under `a`.  Then `root.Set(5, "a", "a")` succeeds
(its parent `root.Search("a")` is the root map, where it stores 5 under `a`),
and `root.Search("a", "a")` reads 5 at its first step and, 5 not being a map,
ends on `nil`, not on 5. -/
theorem Set_then_Search_counterexample :
    ((Container.mk (Value.map 0)).Set selfHeap (Value.number 5) ["a", "a"]).2
        = Outcome.returned none ∧
      ((Container.mk (Value.map 0)).Search
        ((Container.mk (Value.map 0)).Set selfHeap (Value.number 5) ["a", "a"]).1
        ["a", "a"]).Data = Value.nil ∧
      ((Container.mk (Value.map 0)).Search
        ((Container.mk (Value.map 0)).Set selfHeap (Value.number 5) ["a", "a"]).1
        ["a", "a"]).Data ≠ Value.number 5 := by
  decide

/-- C3, amended: if `g.Set(v1, H)` returns no error and the walk to the parent
of the target does not read the entry being written, then afterwards
`g.Search(H).Data()` is `v1`; a following `g.Set(v2, H)` succeeds too and
leaves `v2` at `H`, whether or not the last key existed before. -/
theorem Set_then_Search (h : Heap) (g : Container) (v1 v2 : Value) (hierarchy : List String)
    (hok : (g.Set h v1 hierarchy).2 = Outcome.returned none)
    (hway : targetReadOnWay h g hierarchy = false) :
    (g.Search (g.Set h v1 hierarchy).1 hierarchy).Data = v1 ∧
      (g.Set (g.Set h v1 hierarchy).1 v2 hierarchy).2 = Outcome.returned none ∧
      (g.Search (g.Set (g.Set h v1 hierarchy).1 v2 hierarchy).1 hierarchy).Data = v2 := by
  obtain ⟨ks, k, p, hH, hp⟩ := Set_ok_inv h g v1 hierarchy hok
  subst hH
  rw [targetReadOnWay_concat, hp] at hway
  obtain ⟨_, h1, h2, h3⟩ := Set_concat_then_search h g v1 ks k p hp hway
  obtain ⟨h4, h5, _, _⟩ := Set_concat_then_search (g.Set h v1 (ks ++ [k])).1 g v2 ks k p h2 h3
  exact ⟨h1, h4, h5⟩

theorem Set_then_Search_witness :
    ((Container.mk (Value.map 0)).Set sampleHeap (Value.number 45) ["test", "value"]).2
        = Outcome.returned none ∧
      targetReadOnWay sampleHeap ⟨Value.map 0⟩ ["test", "value"] = false ∧
      ((Container.mk (Value.map 0)).Search
        ((Container.mk (Value.map 0)).Set sampleHeap (Value.number 45) ["test", "value"]).1
        ["test", "value"]).Data = Value.number 45 ∧
      ((Container.mk (Value.map 0)).Set
        ((Container.mk (Value.map 0)).Set sampleHeap (Value.number 45) ["test", "value"]).1
        (Value.number 46) ["test", "value"]).2 = Outcome.returned none ∧
      ((Container.mk (Value.map 0)).Search
        ((Container.mk (Value.map 0)).Set
          ((Container.mk (Value.map 0)).Set sampleHeap (Value.number 45) ["test", "value"]).1
          (Value.number 46) ["test", "value"]).1
        ["test", "value"]).Data = Value.number 46 :=
  ⟨by decide, by decide,
    Set_then_Search sampleHeap ⟨Value.map 0⟩ (Value.number 45) (Value.number 46)
      ["test", "value"] (by decide) (by decide)⟩

/-- C4, counterexample: after `root.Set(map[string]interface{}(nil), "m")` on the
root of `{}` the root holds the nil map under `m`.  For `root.Set(1, "m", "k")`
the hierarchy is not empty and `root.Search("m").Data()` is an Object (the type
assertion of line 85 accepts the nil map), yet the call does not succeed: the
assignment of line 86 panics. -/
theorem Set_result_counterexample :
    ((Container.mk (Value.map 0)).Set emptyHeap Value.nilMap ["m"]).2 = Outcome.returned none ∧
      ["m", "k"] ≠ [] ∧
      ((Container.mk (Value.map 0)).Search nilMapHeap ["m", "k"].dropLast).Data.isObject
        = true ∧
      ((Container.mk (Value.map 0)).Set nilMapHeap (Value.number 1) ["m", "k"]).2
        = Outcome.panicked "assignment to entry in nil map" ∧
      ((Container.mk (Value.map 0)).Set nilMapHeap (Value.number 1) ["m", "k"]).2
        ≠ Outcome.returned none := by
  decide

/-- C4, amended: `g.Set(v, H)` returns the EmptyHierarchy error exactly when `H`
is empty; it returns the TargetNotFound error exactly when `H` is non-empty and
`g.Search(all keys of H but the last).Data()` is not an Object; it succeeds
(returns no error) exactly when `H` is non-empty and that value is a map that
is not nil; and it panics, returning nothing, exactly when `H` is non-empty and
that value is the nil map. -/
theorem Set_result (h : Heap) (g : Container) (v : Value) (hierarchy : List String) :
    ((g.Set h v hierarchy).2
          = Outcome.returned (some "must specify at least one target parent") ↔
        hierarchy = []) ∧
      ((g.Set h v hierarchy).2
          = Outcome.returned (some "target object was not found in structure") ↔
        (hierarchy ≠ [] ∧ (g.Search h hierarchy.dropLast).Data.isObject = false)) ∧
      ((g.Set h v hierarchy).2 = Outcome.returned none ↔
        (hierarchy ≠ [] ∧ ∃ r, (g.Search h hierarchy.dropLast).Data = Value.map r)) ∧
      ((g.Set h v hierarchy).2 = Outcome.panicked "assignment to entry in nil map" ↔
        (hierarchy ≠ [] ∧ (g.Search h hierarchy.dropLast).Data = Value.nilMap)) := by
  by_cases hne : hierarchy = []
  · subst hne
    simp only [Set_empty]
    refine ⟨by simp, ?_, by simp, by simp⟩
    constructor
    · intro e
      exact absurd e (by decide)
    · intro e
      exact absurd rfl e.1
  · have hs := hierarchy_split hierarchy hne
    have hd : (hierarchy.dropLast ++ [hierarchy.getD (hierarchy.length - 1) ""]).dropLast
        = hierarchy.dropLast := List.dropLast_concat
    rw [hs, hd, Set_concat]
    simp only [Container.Search, Container.Data]
    cases hp : searchLoop h g.object hierarchy.dropLast <;>
      simp [Value.isObject]

theorem Set_result_witness :
    ((Container.mk (Value.map 0)).Set sampleHeap (Value.number 1) []).2
        = Outcome.returned (some "must specify at least one target parent") ∧
      ((Container.mk (Value.map 0)).Set sampleHeap (Value.number 1) ["test2", "x"]).2
        = Outcome.returned (some "target object was not found in structure") ∧
      ((Container.mk (Value.map 0)).Set sampleHeap (Value.number 1) ["test", "x"]).2
        = Outcome.returned none ∧
      ((Container.mk (Value.map 0)).Set nilMapHeap (Value.number 1) ["m", "k"]).2
        = Outcome.panicked "assignment to entry in nil map" :=
  ⟨(Set_result sampleHeap ⟨Value.map 0⟩ (Value.number 1) []).1.2 rfl,
    (Set_result sampleHeap ⟨Value.map 0⟩ (Value.number 1) ["test2", "x"]).2.1.2
      ⟨by decide, by decide⟩,
    (Set_result sampleHeap ⟨Value.map 0⟩ (Value.number 1) ["test", "x"]).2.2.1.2
      ⟨by decide, 1, by decide⟩,
    (Set_result nilMapHeap ⟨Value.map 0⟩ (Value.number 1) ["m", "k"]).2.2.2.2
      ⟨by decide, by decide⟩⟩

/-! ## Push -/

theorem Push_empty (h : Heap) (g : Container) (x : Value) :
    g.Push h x [] = (h, some "must specify at least one target parent") := by
  simp [Container.Push]

/-- The body of `Push` on a hierarchy with parent path `ks` and last key `k`. -/
theorem Push_concat (h : Heap) (g : Container) (x : Value) (ks : List String) (k : String) :
    g.Push h x (ks ++ [k]) =
      match searchLoop h g.object ks with
      | Value.map r =>
        match Obj.get (h.maps r) k with
        | Value.slice array => (h.assign r k (Value.slice (array ++ [x])), none)
        | _ => (h, some "target object was not an array")
      | Value.nilMap => (h, some "target object was not an array")
      | _ => (h, some "target object was not found in structure") := by
  simp [Container.Push, Container.Search, Container.Data]

/-- A walk that ends on a map never read an entry that holds something other
than a map: the walk would have ended on `nil` there. -/
theorem readsEntry_false_of_entry_not_map (h : Heap) (p : Nat) (k : String)
    (object : Value) (ks : List String) (q : Nat)
    (hq : searchLoop h object ks = Value.map q)
    (hnm : (Obj.get (h.maps p) k).isObject = false) :
    readsEntry h p k object ks = false := by
  induction ks generalizing object with
  | nil => cases object <;> rfl
  | cons j ks ih =>
    cases object with
    | map r =>
      simp only [searchLoop] at hq
      simp only [readsEntry, Bool.or_eq_false_iff, Bool.and_eq_false_imp,
        decide_eq_true_eq, decide_eq_false_iff_not]
      refine ⟨?_, ih _ hq⟩
      intro hr hj
      subst hr
      subst hj
      cases ks with
      | nil =>
        rw [searchLoop_empty] at hq
        simp [hq, Value.isObject] at hnm
      | cons i ks =>
        rw [searchLoop_not_map] at hq
        · cases hq
        · intro r e
          simp [e, Value.isObject] at hnm
    | nilMap => rfl
    | _ => simp [searchLoop] at hq

/-- One `Push` on a hierarchy that `Search` resolves to the array `A`. -/
theorem Push_concat_slice (h : Heap) (g : Container) (x : Value) (ks : List String)
    (k : String) (A : List Value)
    (hA : searchLoop h g.object (ks ++ [k]) = Value.slice A) :
    (g.Push h x (ks ++ [k])).2 = none ∧
      searchLoop (g.Push h x (ks ++ [k])).1 g.object (ks ++ [k]) = Value.slice (A ++ [x]) := by
  rw [searchLoop_append] at hA
  cases hp : searchLoop h g.object ks with
  | map p =>
    rw [hp] at hA
    simp only [searchLoop, searchLoop_empty] at hA
    have hread : readsEntry h p k g.object ks = false :=
      readsEntry_false_of_entry_not_map h p k g.object ks p hp (by simp [hA, Value.isObject])
    have hpush : g.Push h x (ks ++ [k]) = (h.assign p k (Value.slice (A ++ [x])), none) := by
      rw [Push_concat, hp]
      simp only [hA]
    rw [hpush]
    exact ⟨rfl, searchLoop_assign_target h p k _ g.object ks hp hread⟩
  | _ =>
    rw [hp] at hA
    simp [searchLoop] at hA

/-- C5: when `g.Search(H).Data()` is the Array `A` and `H` is not empty,
`g.Push(x1, H)` succeeds and afterwards `g.Search(H).Data()` is the Array
`A ++ [x1]` (one element longer, the elements of `A` first and in their order,
`x1` last); a following `g.Push(x2, H)` succeeds and leaves `A ++ [x1, x2]`. -/
theorem Push_appends (h : Heap) (g : Container) (x1 x2 : Value) (hierarchy : List String)
    (A : List Value) (hne : hierarchy ≠ [])
    (hA : (g.Search h hierarchy).Data = Value.slice A) :
    (g.Push h x1 hierarchy).2 = none ∧
      (g.Search (g.Push h x1 hierarchy).1 hierarchy).Data = Value.slice (A ++ [x1]) ∧
      (g.Search (g.Push h x1 hierarchy).1 hierarchy).Data.isArray = true ∧
      (A ++ [x1]).length = A.length + 1 ∧
      (A ++ [x1]).take A.length = A ∧
      (A ++ [x1]).getLast? = some x1 ∧
      (g.Push (g.Push h x1 hierarchy).1 x2 hierarchy).2 = none ∧
      (g.Search (g.Push (g.Push h x1 hierarchy).1 x2 hierarchy).1 hierarchy).Data
        = Value.slice (A ++ [x1, x2]) := by
  have hs := hierarchy_split hierarchy hne
  generalize hierarchy.dropLast = ks at hs
  generalize hierarchy.getD (hierarchy.length - 1) "" = k at hs
  subst hs
  simp only [Container.Search, Container.Data] at hA ⊢
  obtain ⟨h1, h2⟩ := Push_concat_slice h g x1 ks k A hA
  obtain ⟨h3, h4⟩ := Push_concat_slice (g.Push h x1 (ks ++ [k])).1 g x2 ks k (A ++ [x1]) h2
  refine ⟨h1, h2, by simp [h2, Value.isArray], by simp, by simp, by simp, h3, ?_⟩
  simpa using h4

theorem Push_appends_witness :
    ["list", "items"] ≠ [] ∧
      ((Container.mk (Value.map 0)).Search arrayHeap ["list", "items"]).Data
        = Value.slice [Value.number 1] ∧
      ((Container.mk (Value.map 0)).Search
        ((Container.mk (Value.map 0)).Push
          ((Container.mk (Value.map 0)).Push arrayHeap (Value.string "two")
            ["list", "items"]).1
          (Value.number 3) ["list", "items"]).1
        ["list", "items"]).Data
        = Value.slice ([Value.number 1] ++ [Value.string "two", Value.number 3]) :=
  ⟨by decide, by decide,
    (Push_appends arrayHeap ⟨Value.map 0⟩ (Value.string "two") (Value.number 3)
      ["list", "items"] [Value.number 1] (by decide) (by decide)).2.2.2.2.2.2.2⟩

/-- C6: the result of `g.Push(x, H)` is EmptyHierarchy when `H` is empty;
otherwise TargetNotFound when `g.Search(all keys of H but the last).Data()` is
not an Object; otherwise TargetNotArray when what that Object holds under the
last key of `H` is not an Array, and so when the key is missing, the heap being
left as it was (no array is created); otherwise success.  The nil map, which
holds no key, is an Object of the third case. -/
theorem Push_result (h : Heap) (g : Container) (x : Value) (hierarchy : List String) :
    (hierarchy = [] →
        (g.Push h x hierarchy).2 = some "must specify at least one target parent") ∧
      (hierarchy ≠ [] → (g.Search h hierarchy.dropLast).Data.isObject = false →
        (g.Push h x hierarchy).2 = some "target object was not found in structure") ∧
      (∀ (hne : hierarchy ≠ []) (r : Nat),
        (g.Search h hierarchy.dropLast).Data = Value.map r →
        (Obj.get (h.maps r) (hierarchy.getLast hne)).isArray = false →
        g.Push h x hierarchy = (h, some "target object was not an array")) ∧
      (∀ (hne : hierarchy ≠ []) (r : Nat),
        (g.Search h hierarchy.dropLast).Data = Value.map r →
        List.lookup (hierarchy.getLast hne) (h.maps r) = none →
        g.Push h x hierarchy = (h, some "target object was not an array")) ∧
      (∀ (hne : hierarchy ≠ []) (r : Nat),
        (g.Search h hierarchy.dropLast).Data = Value.map r →
        (Obj.get (h.maps r) (hierarchy.getLast hne)).isArray = true →
        (g.Push h x hierarchy).2 = none) ∧
      (hierarchy ≠ [] → (g.Search h hierarchy.dropLast).Data = Value.nilMap →
        g.Push h x hierarchy = (h, some "target object was not an array")) := by
  have key : ∀ (hne : hierarchy ≠ []) (r : Nat),
      (g.Search h hierarchy.dropLast).Data = Value.map r →
      g.Push h x hierarchy =
        match Obj.get (h.maps r) (hierarchy.getLast hne) with
        | Value.slice array =>
          (h.assign r (hierarchy.getLast hne) (Value.slice (array ++ [x])), none)
        | _ => (h, some "target object was not an array") := by
    intro hne r hp
    simp only [Container.Search, Container.Data] at hp
    conv_lhs => rw [← List.dropLast_append_getLast hne]
    rw [Push_concat, hp]
  refine ⟨?_, ?_, ?_, ?_, ?_, ?_⟩
  · intro he
    subst he
    rw [Push_empty]
  · intro hne hp
    simp only [Container.Search, Container.Data] at hp
    rw [hierarchy_split hierarchy hne, Push_concat]
    cases hs : searchLoop h g.object hierarchy.dropLast with
    | map r => simp [hs, Value.isObject] at hp
    | nilMap => simp [hs, Value.isObject] at hp
    | _ => rfl
  · intro hne r hp ht
    rw [key hne r hp]
    cases hv : Obj.get (h.maps r) (hierarchy.getLast hne) with
    | slice A => simp [hv, Value.isArray] at ht
    | _ => rfl
  · intro hne r hp hl
    rw [key hne r hp, Obj.get_of_lookup_none _ _ hl]
  · intro hne r hp ht
    rw [key hne r hp]
    cases hv : Obj.get (h.maps r) (hierarchy.getLast hne) with
    | slice A => rfl
    | _ => simp [hv, Value.isArray] at ht
  · intro hne hp
    simp only [Container.Search, Container.Data] at hp
    rw [hierarchy_split hierarchy hne, Push_concat, hp]

theorem Push_result_witness :
    ((Container.mk (Value.map 0)).Push arrayHeap (Value.number 2) []).2
        = some "must specify at least one target parent" ∧
      ((Container.mk (Value.map 0)).Push arrayHeap (Value.number 2) ["missingParent", "arr"]).2
        = some "target object was not found in structure" ∧
      ((Container.mk (Value.map 0)).Push arrayHeap (Value.number 2) ["list", "absent"]).2
        = some "target object was not an array" ∧
      ((Container.mk (Value.map 0)).Push arrayHeap (Value.number 2) ["name"]).2
        = some "target object was not an array" ∧
      ((Container.mk (Value.map 0)).Push arrayHeap (Value.number 2) ["list", "items"]).2
        = none ∧
      ((Container.mk (Value.map 0)).Push nilMapHeap (Value.number 2) ["m", "k"]).2
        = some "target object was not an array" :=
  ⟨(Push_result arrayHeap ⟨Value.map 0⟩ (Value.number 2) []).1 rfl,
    (Push_result arrayHeap ⟨Value.map 0⟩ (Value.number 2) ["missingParent", "arr"]).2.1
      (by decide) (by decide),
    congrArg Prod.snd
      ((Push_result arrayHeap ⟨Value.map 0⟩ (Value.number 2) ["list", "absent"]).2.2.2.1
        (by decide) 1 (by decide) (by decide)),
    congrArg Prod.snd
      ((Push_result arrayHeap ⟨Value.map 0⟩ (Value.number 2) ["name"]).2.2.1
        (by decide) 0 (by decide) (by decide)),
    (Push_result arrayHeap ⟨Value.map 0⟩ (Value.number 2) ["list", "items"]).2.2.2.2.1
      (by decide) 1 (by decide) (by decide),
    congrArg Prod.snd
      ((Push_result nilMapHeap ⟨Value.map 0⟩ (Value.number 2) ["m", "k"]).2.2.2.2.2
        (by decide) (by decide))⟩

/-! ## CreateObject and CreateArray -/

/-- C7, counterexample: the handle `root.Search("m")`, after
`root.Set(map[string]interface{}(nil), "m")` on the root of `{}`, wraps an
Object, the nil map (the type assertion of line 123 accepts it).
`CreateObject("k")` on it stores nothing and returns no handle: the assignment
of line 124 panics, and `Search("k")` on the handle is `nil` afterwards. -/
theorem CreateObject_result_counterexample :
    ((Container.mk (Value.map 0)).Search nilMapHeap ["m"]).Data.isObject = true ∧
      (((Container.mk (Value.map 0)).Search nilMapHeap ["m"]).CreateObject nilMapHeap "k").2
        = Outcome.panicked "assignment to entry in nil map" ∧
      (((Container.mk (Value.map 0)).Search nilMapHeap ["m"]).Search
        (((Container.mk (Value.map 0)).Search nilMapHeap ["m"]).CreateObject nilMapHeap "k").1
        ["k"]).Data = Value.nil := by
  decide

/-- C7, amended: on a handle wrapping a map that is not nil (at an allocated
address `r`), `CreateObject(k)` returns a handle on a new map (at the fresh
address `h.next`), that map is empty, it is what `r` now holds under `k` and
what `g.Search(k).Data()` gives, every other key of `r` reads as before and
every other map is as before.  On a handle wrapping the nil map the call
panics and every map that existed is as before.  On a handle that does not
wrap an Object it returns a handle on `nil` and the heap is unchanged. -/
theorem CreateObject_result (h : Heap) (g : Container) (k : String) :
    (∀ r : Nat, g.Data = Value.map r → r < h.next →
        (g.CreateObject h k).2 = Outcome.returned ⟨Value.map h.next⟩ ∧
        (g.CreateObject h k).1.maps h.next = [] ∧
        Obj.get ((g.CreateObject h k).1.maps r) k = Value.map h.next ∧
        (g.Search (g.CreateObject h k).1 [k]).Data = Value.map h.next ∧
        (∀ j : String, j ≠ k →
          Obj.get ((g.CreateObject h k).1.maps r) j = Obj.get (h.maps r) j) ∧
        (∀ a : Nat, a ≠ r → a ≠ h.next → (g.CreateObject h k).1.maps a = h.maps a)) ∧
      (g.Data = Value.nilMap →
        (g.CreateObject h k).2 = Outcome.panicked "assignment to entry in nil map" ∧
        (∀ a : Nat, a ≠ h.next → (g.CreateObject h k).1.maps a = h.maps a)) ∧
      (g.Data.isObject = false → g.CreateObject h k = (h, Outcome.returned ⟨Value.nil⟩)) := by
  refine ⟨?_, ?_, ?_⟩
  · intro r hg hr
    have hne : r ≠ h.next := Nat.ne_of_lt hr
    have hne' : h.next ≠ r := fun e => hne e.symm
    simp only [Container.Data] at hg
    have hget : Obj.get ((g.CreateObject h k).1.maps r) k = Value.map h.next := by
      simp only [Container.CreateObject, Container.Data, hg, Heap.alloc,
        Heap.assign_maps_same, Obj.get_set_same]
    refine ⟨?_, ?_, hget, ?_, ?_, ?_⟩
    · simp only [Container.CreateObject, Container.Data, hg, Heap.alloc,
        Heap.assign_maps_same, Obj.get_set_same]
    · simp [Container.CreateObject, Container.Data, hg, Heap.alloc, Heap.assign, hne']
    · simp only [Container.Search, Container.Data, hg, searchLoop, searchLoop_empty, hget]
    · intro j hj
      simp only [Container.CreateObject, Container.Data, hg, Heap.alloc,
        Heap.assign_maps_same, Obj.get_set_other _ _ _ _ hj]
      simp [hne]
    · intro a har han
      simp [Container.CreateObject, Container.Data, hg, Heap.alloc, Heap.assign, har, han]
  · intro hg
    simp only [Container.Data] at hg
    refine ⟨by simp [Container.CreateObject, Container.Data, hg], ?_⟩
    intro a ha
    simp [Container.CreateObject, Container.Data, hg, Heap.alloc, ha]
  · intro hg
    simp only [Container.Data] at hg
    cases ho : g.object with
    | map r => simp [ho, Value.isObject] at hg
    | nilMap => simp [ho, Value.isObject] at hg
    | _ => simp [Container.CreateObject, Container.Data, ho]

theorem CreateObject_result_witness :
    ((Container.mk (Value.map 0)).CreateObject sampleHeap "test").2
        = Outcome.returned ⟨Value.map 2⟩ ∧
      ((Container.mk (Value.map 0)).CreateObject sampleHeap "test").1.maps 2 = [] ∧
      ((Container.mk (Value.map 0)).Search
        ((Container.mk (Value.map 0)).CreateObject sampleHeap "test").1 ["test"]).Data
        = Value.map 2 ∧
      Obj.get (((Container.mk (Value.map 0)).CreateObject sampleHeap "test").1.maps 0) "test2"
        = Value.number 20 ∧
      ((Container.mk Value.nilMap).CreateObject sampleHeap "test").2
        = Outcome.panicked "assignment to entry in nil map" ∧
      ((Container.mk (Value.number 7)).CreateObject sampleHeap "test").2
        = Outcome.returned ⟨Value.nil⟩ :=
  ⟨((CreateObject_result sampleHeap ⟨Value.map 0⟩ "test").1 0 rfl (by decide)).1,
    ((CreateObject_result sampleHeap ⟨Value.map 0⟩ "test").1 0 rfl (by decide)).2.1,
    ((CreateObject_result sampleHeap ⟨Value.map 0⟩ "test").1 0 rfl (by decide)).2.2.2.1,
    ((CreateObject_result sampleHeap ⟨Value.map 0⟩ "test").1 0 rfl (by decide)).2.2.2.2.1
      "test2" (by decide),
    ((CreateObject_result sampleHeap ⟨Value.nilMap⟩ "test").2.1 rfl).1,
    congrArg Prod.snd ((CreateObject_result sampleHeap ⟨Value.number 7⟩ "test").2.2 rfl)⟩

/-- C8, counterexample: the handle `root.Search("m")`, after
`root.Set(map[string]interface{}(nil), "m")` on the root of `{}`, wraps an
Object, the nil map (the type assertion of line 142 accepts it).
`CreateArray("k")` on it does not succeed: the assignment of line 143 panics,
and `Search("k")` on the handle is `nil` afterwards, not the empty Array. -/
theorem CreateArray_result_counterexample :
    ((Container.mk (Value.map 0)).Search nilMapHeap ["m"]).Data.isObject = true ∧
      (((Container.mk (Value.map 0)).Search nilMapHeap ["m"]).CreateArray nilMapHeap "k").2
        = Outcome.panicked "assignment to entry in nil map" ∧
      (((Container.mk (Value.map 0)).Search nilMapHeap ["m"]).Search
        (((Container.mk (Value.map 0)).Search nilMapHeap ["m"]).CreateArray nilMapHeap "k").1
        ["k"]).Data ≠ Value.slice [] := by
  decide

/-- C8, amended: `CreateArray(k)` returns the NotAnObject error exactly when the
handle does not wrap an Object, and then the heap is unchanged; on a handle
wrapping a map that is not nil (at address `r`) it returns no error, afterwards
`g.Search(k).Data()` is the empty Array, every other key of `r` reads as
before and every other map is as before; on a handle wrapping the nil map it
panics and the heap is unchanged. -/
theorem CreateArray_result (h : Heap) (g : Container) (k : String) :
    ((g.CreateArray h k).2 = Outcome.returned (some "container was not a valid object") ↔
        g.Data.isObject = false) ∧
      (g.Data.isObject = false → (g.CreateArray h k).1 = h) ∧
      (∀ r : Nat, g.Data = Value.map r →
        (g.CreateArray h k).2 = Outcome.returned none ∧
        (g.Search (g.CreateArray h k).1 [k]).Data = Value.slice [] ∧
        (∀ j : String, j ≠ k →
          Obj.get ((g.CreateArray h k).1.maps r) j = Obj.get (h.maps r) j) ∧
        (∀ a : Nat, a ≠ r → (g.CreateArray h k).1.maps a = h.maps a)) ∧
      (g.Data = Value.nilMap →
        g.CreateArray h k = (h, Outcome.panicked "assignment to entry in nil map")) := by
  cases ho : g.object with
  | map r =>
    refine ⟨by simp [Container.CreateArray, Container.Data, ho, Value.isObject],
      by simp [Container.Data, ho, Value.isObject], ?_, by simp [Container.Data, ho]⟩
    intro r' hr
    simp only [Container.Data, ho, Value.map.injEq] at hr
    subst hr
    refine ⟨by simp [Container.CreateArray, Container.Data, ho], ?_, ?_, ?_⟩
    · simp [Container.CreateArray, Container.Data, Container.Search, ho, searchLoop,
        searchLoop_empty, Heap.assign_maps_same, Obj.get_set_same]
    · intro j hj
      simp [Container.CreateArray, Container.Data, ho, Heap.assign_maps_same,
        Obj.get_set_other _ _ _ _ hj]
    · intro a ha
      simp [Container.CreateArray, Container.Data, ho, Heap.assign_maps_other _ _ _ _ _ ha]
  | _ => simp [Container.CreateArray, Container.Data, ho, Value.isObject]

theorem CreateArray_result_witness :
    ((Container.mk (Value.number 7)).CreateArray sampleHeap "x").2
        = Outcome.returned (some "container was not a valid object") ∧
      ((Container.mk (Value.map 1)).CreateArray sampleHeap "array").2
        = Outcome.returned none ∧
      ((Container.mk (Value.map 1)).Search
        ((Container.mk (Value.map 1)).CreateArray sampleHeap "array").1 ["array"]).Data
        = Value.slice [] ∧
      ((Container.mk Value.nilMap).CreateArray sampleHeap "x").2
        = Outcome.panicked "assignment to entry in nil map" :=
  ⟨(CreateArray_result sampleHeap ⟨Value.number 7⟩ "x").1.2 rfl,
    ((CreateArray_result sampleHeap ⟨Value.map 1⟩ "array").2.2.1 1 rfl).1,
    ((CreateArray_result sampleHeap ⟨Value.map 1⟩ "array").2.2.1 1 rfl).2.1,
    congrArg Prod.snd ((CreateArray_result sampleHeap ⟨Value.nilMap⟩ "x").2.2.2 rfl)⟩

/-! ## ParseJson -/

/-- C9: for any decoder, `ParseJson(b)` succeeds exactly when the decoder
succeeds on `b` with an Object, and then returns the decoder's heap and a
handle whose `Data()` is that Object; a decoder error is returned unchanged; a
decoded Array, scalar or null gives the NoData error; so the root of every
parsed handle is an Object. -/
theorem ParseJson_result (unmarshal : List Nat → Except String (Heap × Value))
    (sample : List Nat) :
    ((∃ h g, ParseJson unmarshal sample = Except.ok (h, g)) ↔
        (∃ h v, unmarshal sample = Except.ok (h, v) ∧ v.isObject = true)) ∧
      (∀ h v, unmarshal sample = Except.ok (h, v) → v.isObject = true →
        ∃ g, ParseJson unmarshal sample = Except.ok (h, g) ∧ g.Data = v) ∧
      (∀ err, unmarshal sample = Except.error err →
        ParseJson unmarshal sample = Except.error err) ∧
      (∀ h v, unmarshal sample = Except.ok (h, v) → v.isObject = false →
        ParseJson unmarshal sample = Except.error "json appears to contain no data.") ∧
      (∀ h g, ParseJson unmarshal sample = Except.ok (h, g) → g.Data.isObject = true) := by
  cases hu : unmarshal sample with
  | error err => simp [ParseJson, hu]
  | ok res =>
    obtain ⟨h, v⟩ := res
    cases v with
    | map r =>
      simp only [ParseJson, hu, Container.Data, Value.isObject]
      exact ⟨by simp; exact ⟨h, Value.map r, ⟨rfl, rfl⟩, rfl⟩, by simp, by simp, by simp,
        by simp⟩
    | nilMap =>
      simp only [ParseJson, hu, Container.Data, Value.isObject]
      exact ⟨by simp; exact ⟨h, Value.nilMap, ⟨rfl, rfl⟩, rfl⟩, by simp, by simp, by simp,
        by simp⟩
    | _ => simp [ParseJson, hu, Value.isObject]

theorem ParseJson_result_witness :
    (∃ g, ParseJson sampleUnmarshal [123, 125] = Except.ok (emptyHeap, g) ∧
        g.Data = Value.map 0) ∧
      ParseJson sampleUnmarshal [123] = Except.error "unexpected end of JSON input" ∧
      ParseJson sampleUnmarshal [91, 93] = Except.error "json appears to contain no data." :=
  ⟨(ParseJson_result sampleUnmarshal [123, 125]).2.1 emptyHeap (Value.map 0) rfl rfl,
    (ParseJson_result sampleUnmarshal [123]).2.2.1 _ rfl,
    (ParseJson_result sampleUnmarshal [91, 93]).2.2.2.1 _ _ rfl rfl⟩

/-! ## Handles obtained by Search -/

/-- A walk that reads an entry of the map at `p` reached `p` before the key of
that entry. -/
theorem readsEntry_split (h : Heap) (p : Nat) (k : String) (object : Value)
    (ks : List String) (hread : readsEntry h p k object ks = true) :
    ∃ ks1 ks2, ks = ks1 ++ k :: ks2 ∧ searchLoop h object ks1 = Value.map p := by
  induction ks generalizing object with
  | nil => cases object <;> simp [readsEntry] at hread
  | cons j ks ih =>
    cases object with
    | map r =>
      simp only [readsEntry, Bool.or_eq_true, Bool.and_eq_true, decide_eq_true_eq] at hread
      rcases hread with ⟨hr, hj⟩ | hrest
      · subst hr
        subst hj
        exact ⟨[], ks, rfl, rfl⟩
      · obtain ⟨ks1, ks2, hks, hp⟩ := ih _ hrest
        refine ⟨j :: ks1, ks2, by simp [hks], ?_⟩
        simpa [searchLoop] using hp
    | _ => simp [readsEntry] at hread

/-- In an acyclic structure the walk to a map reads no entry of that map. -/
theorem readsEntry_false_of_acyclic (h : Heap) (root : Value) (ks : List String) (p : Nat)
    (k : String) (hac : Acyclic h root) (hp : searchLoop h root ks = Value.map p) :
    readsEntry h p k root ks = false := by
  cases hread : readsEntry h p k root ks with
  | false => rfl
  | true =>
    obtain ⟨ks1, ks2, hks, hp1⟩ := readsEntry_split h p k root ks hread
    rw [hks, searchLoop_append, hp1] at hp
    exact absurd (hac ks1 (k :: ks2) p hp1 hp) (by simp)

/-- A structure whose maps can be ranked so that every map held in an entry
ranks below its holder is acyclic. -/
theorem acyclic_of_rank (h : Heap) (root : Value) (rank : Nat → Nat)
    (hrank : ∀ r k q, Obj.get (h.maps r) k = Value.map q → rank q < rank r) :
    Acyclic h root := by
  have hle : ∀ (js : List String) (r q : Nat),
      searchLoop h (Value.map r) js = Value.map q → js ≠ [] → rank q < rank r := by
    intro js
    induction js with
    | nil => intro r q _ hne; exact absurd rfl hne
    | cons j js ih =>
      intro r q hq _
      simp only [searchLoop] at hq
      cases js with
      | nil =>
        rw [searchLoop_empty] at hq
        exact hrank r j q hq
      | cons i js =>
        cases hv : Obj.get (h.maps r) j with
        | map r1 =>
          rw [hv] at hq
          exact Nat.lt_trans (ih r1 q hq (by simp)) (hrank r j r1 hv)
        | _ =>
          rw [hv] at hq
          simp [searchLoop, searchLoop_nil] at hq
  intro ks js r _ hloop
  by_contra hne
  exact Nat.lt_irrefl _ (hle js r r hloop hne)

theorem sampleHeap_acyclic : Acyclic sampleHeap (Value.map 0) := by
  apply acyclic_of_rank sampleHeap (Value.map 0) (fun a => if a = 0 then 1 else 0)
  intro r k q hq
  by_cases h0 : r = 0
  · subst h0
    simp only [sampleHeap, if_true, Obj.get] at hq
    split at hq
    · cases hq
      simp
    · split at hq <;> cases hq
  · by_cases h1 : r = 1
    · subst h1
      simp only [sampleHeap, Obj.get] at hq
      split at hq <;> cases hq
    · simp [sampleHeap, h0, h1, Obj.get] at hq

/-- The parent path and the last key of `P ++ H` are `P` followed by the parent
path of `H`, and the last key of `H`. -/
theorem Set_append (h : Heap) (r : Container) (v : Value) (P H : List String)
    (hne : H ≠ []) :
    (r.Search h P).Set h v H = r.Set h v (P ++ H) := by
  have hs := hierarchy_split H hne
  generalize H.dropLast = ks at hs
  generalize H.getD (H.length - 1) "" = k at hs
  subst hs
  rw [← List.append_assoc, Set_concat, Set_concat]
  simp only [Container.Search, searchLoop_append]

/-- C10: on a root handle `r` of an acyclic structure (every tree is one), for
every path `P`, non-empty hierarchy `H` and value `v`, `Set(v, H)` on the handle
`r.Search(P)` gives the same error result and the same heap as
`r.Set(v, P ++ H)`; and when it succeeds, `r.Search(P ++ H).Data()` is `v`
afterwards. -/
theorem Set_through_searched_handle (h : Heap) (r : Container) (v : Value)
    (P H : List String) (hne : H ≠ []) (htree : Acyclic h r.object) :
    ((r.Search h P).Set h v H).2 = (r.Set h v (P ++ H)).2 ∧
      ((r.Search h P).Set h v H).1 = (r.Set h v (P ++ H)).1 ∧
      (((r.Search h P).Set h v H).2 = Outcome.returned none →
        (r.Search ((r.Search h P).Set h v H).1 (P ++ H)).Data = v) := by
  rw [Set_append h r v P H hne]
  refine ⟨rfl, rfl, ?_⟩
  intro hok
  obtain ⟨ks, k, p, hH, hp⟩ := Set_ok_inv h r v (P ++ H) hok
  rw [hH]
  have hread := readsEntry_false_of_acyclic h r.object ks p k htree hp
  exact (Set_concat_then_search h r v ks k p hp hread).2.1

theorem Set_through_searched_handle_witness :
    ["value"] ≠ [] ∧ Acyclic sampleHeap (Container.mk (Value.map 0)).object ∧
      (((Container.mk (Value.map 0)).Search sampleHeap ["test"]).Set sampleHeap
          (Value.number 45) ["value"]).2 = Outcome.returned none ∧
      ((Container.mk (Value.map 0)).Search
        (((Container.mk (Value.map 0)).Search sampleHeap ["test"]).Set sampleHeap
          (Value.number 45) ["value"]).1 (["test"] ++ ["value"])).Data = Value.number 45 :=
  ⟨by decide, sampleHeap_acyclic, by decide,
    (Set_through_searched_handle sampleHeap ⟨Value.map 0⟩ (Value.number 45) ["test"] ["value"]
      (by decide) sampleHeap_acyclic).2.2 (by decide)⟩

/-! ## More on Search -/

theorem Obj.lookup_set_same (m : Obj) (k : String) (v : Value) :
    List.lookup k (Obj.set m k v) = some v := by
  induction m with
  | nil => simp [Obj.set, List.lookup]
  | cons e m ih =>
    obtain ⟨k', v'⟩ := e
    by_cases hk : k' = k
    · simp [Obj.set, hk, List.lookup]
    · have hb : (k == k') = false := by
        simp only [beq_eq_false_iff_ne, ne_eq]
        exact fun e => hk e.symm
      simp [Obj.set, hk, List.lookup, hb, ih]

/-- Two heaps whose maps read alike are walked alike. -/
theorem searchLoop_congr (h1 h2 : Heap)
    (hget : ∀ a j, Obj.get (h1.maps a) j = Obj.get (h2.maps a) j)
    (object : Value) (ks : List String) :
    searchLoop h1 object ks = searchLoop h2 object ks := by
  induction ks generalizing object with
  | nil => simp [searchLoop_empty]
  | cons k ks ih =>
    cases object with
    | map r =>
      simp only [searchLoop, hget r k]
      exact ih _
    | nilMap => rw [searchLoop_nilMap, searchLoop_nilMap]
    | _ => rfl

/-- C12: on an Object (the map at `r`, reached from `g` by the parent path `P`,
which may be empty) that lacks the key `k`, `Search(P, k).Data()` is `nil`; on
the same Object extended with `k` mapped to null (`nil`) the key is present,
the parent path still leads to the Object, and `Search(P, k).Data()` is again
`nil`: the two cases give the same, absent, value. -/
theorem Search_missing_or_null (h : Heap) (g : Container) (P : List String) (k : String)
    (r : Nat) (hp : (g.Search h P).Data = Value.map r)
    (hk : List.lookup k (h.maps r) = none) :
    List.lookup k ((h.assign r k Value.nil).maps r) = some Value.nil ∧
      (g.Search (h.assign r k Value.nil) P).Data = Value.map r ∧
      (g.Search h (P ++ [k])).Data = Value.nil ∧
      (g.Search (h.assign r k Value.nil) (P ++ [k])).Data = Value.nil ∧
      (g.Search h (P ++ [k])).Data = (g.Search (h.assign r k Value.nil) (P ++ [k])).Data := by
  simp only [Container.Search, Container.Data] at hp ⊢
  have hnil : Obj.get (h.maps r) k = Value.nil := Obj.get_of_lookup_none _ _ hk
  have hget : ∀ a j, Obj.get ((h.assign r k Value.nil).maps a) j = Obj.get (h.maps a) j := by
    intro a j
    by_cases hs : a = r ∧ j = k
    · obtain ⟨ha, hj⟩ := hs
      subst ha
      subst hj
      rw [Heap.assign_maps_same, Obj.get_set_same, hnil]
    · exact Heap.assign_get_other h r a k j Value.nil hs
  have hsame := searchLoop_congr (h.assign r k Value.nil) h hget g.object
  have hmiss : searchLoop h g.object (P ++ [k]) = Value.nil := by
    rw [searchLoop_append, hp]
    simp [searchLoop, hnil, searchLoop_empty]
  refine ⟨?_, ?_, hmiss, ?_, ?_⟩
  · rw [Heap.assign_maps_same, Obj.lookup_set_same]
  · rw [hsame, hp]
  · rw [hsame, hmiss]
  · rw [hsame]

theorem Search_missing_or_null_witness :
    ((Container.mk (Value.map 0)).Search sampleHeap ["test"]).Data = Value.map 1 ∧
      List.lookup "absent" (sampleHeap.maps 1) = none ∧
      ((Container.mk (Value.map 0)).Search sampleHeap (["test"] ++ ["absent"])).Data
        = ((Container.mk (Value.map 0)).Search (sampleHeap.assign 1 "absent" Value.nil)
            (["test"] ++ ["absent"])).Data :=
  ⟨by decide, by decide,
    (Search_missing_or_null sampleHeap ⟨Value.map 0⟩ ["test"] "absent" 1
      (by decide) (by decide)).2.2.2.2⟩

/-- C13: `g.Search()` with the empty hierarchy returns a handle whose `Data()`
is `g.Data()`, whatever `g` wraps. -/
theorem Search_empty_hierarchy (h : Heap) (g : Container) :
    (g.Search h []).Data = g.Data := by
  simp only [Container.Search, Container.Data]
  exact searchLoop_empty h g.object

/-- C17: `g.Search(H1 ++ H2).Data()` is `g.Search(H1).Search(H2).Data()` for
all hierarchies, wherever the walk of `H1` ends; the same holds of the
shorthand `S`, so a chain of single-key `S` calls is one multi-key `Search`. -/
theorem Search_append (h : Heap) (g : Container) (H1 H2 : List String) :
    (g.Search h (H1 ++ H2)).Data = ((g.Search h H1).Search h H2).Data ∧
      (g.S h (H1 ++ H2)).Data = ((g.S h H1).S h H2).Data ∧
      (∀ k : String, (g.Search h (H1 ++ [k])).Data = ((g.Search h H1).S h [k]).Data) := by
  simp only [Container.S, Container.Search, Container.Data]
  exact ⟨searchLoop_append h g.object H1 H2, searchLoop_append h g.object H1 H2,
    fun k => searchLoop_append h g.object H1 [k]⟩

/-! ## String -/

/-- C14: for any encoder, `String()` is the encoder's output when the encoder
succeeds on `g.Data()`, and exactly the two characters of the empty object
when the encoder fails; its result is a string, never an error. -/
theorem String_result (marshal : Heap → Value → Except String String) (h : Heap)
    (g : Container) :
    (∀ bytes, marshal h g.Data = Except.ok bytes → g.String marshal h = bytes) ∧
      (∀ err, marshal h g.Data = Except.error err →
        g.String marshal h = "\x7b\x7d") := by
  simp only [Container.Data, Container.String]
  constructor
  · intro bytes hb
    rw [hb]
  · intro err he
    rw [he]

/-! ## Failing calls -/

/-- C19: whenever `g.Set(v, H)` or `g.Push(v, H)` returns an error, the heap,
and with it the tree reachable from `g`, is the one from before the call. -/
theorem Set_Push_error_unchanged (h : Heap) (g : Container) (v : Value)
    (hierarchy : List String) :
    (∀ err, (g.Set h v hierarchy).2 = Outcome.returned (some err) →
        (g.Set h v hierarchy).1 = h) ∧
      (∀ err, (g.Push h v hierarchy).2 = some err → (g.Push h v hierarchy).1 = h) := by
  by_cases hne : hierarchy = []
  · subst hne
    simp [Set_empty, Push_empty]
  · have hs := hierarchy_split hierarchy hne
    generalize hierarchy.dropLast = ks at hs
    generalize hierarchy.getD (hierarchy.length - 1) "" = k at hs
    subst hs
    rw [Set_concat, Push_concat]
    cases hp : searchLoop h g.object ks with
    | map r =>
      refine ⟨by simp, ?_⟩
      cases ht : Obj.get (h.maps r) k <;> simp [ht]
    | _ => simp

/-! ## What Set leaves alone, and what it shares -/

/-- The key paths that lead to a map in `sampleHeap`: the empty one, to the
root, and `test`, to the inner map. -/
theorem sampleHeap_paths (P : List String) (r : Nat)
    (hp : searchLoop sampleHeap (Value.map 0) P = Value.map r) :
    (P = [] ∧ r = 0) ∨ (P = ["test"] ∧ r = 1) := by
  cases P with
  | nil =>
    rw [searchLoop_empty] at hp
    cases hp
    exact Or.inl ⟨rfl, rfl⟩
  | cons k ks =>
    simp only [searchLoop, sampleHeap, if_true, Obj.get] at hp
    split at hp
    · rename_i hk
      cases ks with
      | nil =>
        rw [searchLoop_empty] at hp
        cases hp
        exact Or.inr ⟨by rw [← hk], rfl⟩
      | cons j js =>
        simp only [searchLoop, Obj.get] at hp
        split at hp
        · cases js with
          | nil => rw [searchLoop_empty] at hp; cases hp
          | cons i js => simp [searchLoop] at hp
        · rw [searchLoop_nil] at hp
          cases hp
    · split at hp
      · cases ks with
        | nil => rw [searchLoop_empty] at hp; cases hp
        | cons i js => simp [searchLoop] at hp
      · rw [searchLoop_nil] at hp
        cases hp

theorem sampleHeap_noSharing : NoSharing sampleHeap (Value.map 0) := by
  intro P Q r hP hQ
  rcases sampleHeap_paths P r hP with ⟨h1, h2⟩ | ⟨h1, h2⟩ <;>
    rcases sampleHeap_paths Q r hQ with ⟨h3, h4⟩ | ⟨h3, h4⟩
  · rw [h1, h3]
  · omega
  · omega
  · rw [h1, h3]

/-- C18: on a structure without shared maps, when `Set(v, H)` succeeds, every
hierarchy `K` such that neither `H` is a prefix of `K` nor `K` a prefix of `H`
is searched to the same `Data()` after the `Set` as before it. -/
theorem Set_frame (h : Heap) (g : Container) (v : Value) (H K : List String)
    (htree : NoSharing h g.object)
    (hok : (g.Set h v H).2 = Outcome.returned none)
    (hHK : ¬ ∃ t, K = H ++ t) (_hKH : ¬ ∃ t, H = K ++ t) :
    (g.Search (g.Set h v H).1 K).Data = (g.Search h K).Data := by
  obtain ⟨ks, k, p, hH, hp⟩ := Set_ok_inv h g v H hok
  subst hH
  rw [Set_concat_map h g v ks k p hp]
  simp only [Container.Search, Container.Data]
  apply searchLoop_assign_of_not_read
  cases hread : readsEntry h p k g.object K with
  | false => rfl
  | true =>
    obtain ⟨ks1, ks2, hK, hp1⟩ := readsEntry_split h p k g.object K hread
    have hsame : ks1 = ks := htree ks1 ks p hp1 hp
    exact absurd ⟨ks2, by rw [hK, hsame]; simp⟩ hHK

theorem Set_frame_witness :
    NoSharing sampleHeap (Container.mk (Value.map 0)).object ∧
      ((Container.mk (Value.map 0)).Set sampleHeap (Value.number 45) ["test", "value"]).2
        = Outcome.returned none ∧
      ((Container.mk (Value.map 0)).Search
        ((Container.mk (Value.map 0)).Set sampleHeap (Value.number 45) ["test", "value"]).1
        ["test2"]).Data
        = ((Container.mk (Value.map 0)).Search sampleHeap ["test2"]).Data :=
  ⟨sampleHeap_noSharing, by decide,
    Set_frame sampleHeap ⟨Value.map 0⟩ (Value.number 45) ["test", "value"] ["test2"]
      sampleHeap_noSharing (by decide)
      (by rintro ⟨t, ht⟩; simp at ht) (by rintro ⟨t, ht⟩; simp at ht)⟩

theorem sharedHeap_acyclic : Acyclic sharedHeap (Value.map 0) := by
  apply acyclic_of_rank sharedHeap (Value.map 0) (fun a => if a = 0 then 1 else 0)
  intro r k q hq
  have hmaps : ∀ a, sharedHeap.maps a =
      if a = 0 then [("test", Value.map 1), ("test2", Value.map 1)]
      else if a = 1 then [("value", Value.number 10)] else [] := by
    intro a
    by_cases h0 : a = 0
    · subst h0
      rfl
    · by_cases h1 : a = 1
      · subst h1
        rfl
      · simp [sharedHeap, Container.Set, Container.Search, Container.Data, searchLoop,
          Heap.assign, sampleHeap, h0, h1]
  rw [hmaps] at hq
  by_cases h0 : r = 0
  · subst h0
    simp only [if_true, Obj.get] at hq
    split at hq
    · cases hq
      simp
    · split at hq
      · cases hq
        simp
      · cases hq
  · by_cases h1 : r = 1
    · subst h1
      simp only [Obj.get] at hq
      split at hq <;> cases hq
    · simp [h0, h1, Obj.get] at hq

/-- C16, counterexample: three cases, each with the root handle `r`.  On the
document `{"x":{"y":{}}}`, let `A` be the Object at `x`, `y` and store it under
`x` (`cutHeap`).  The handle `r.Search("x", "y")` obtained before the store
wraps `A`; `Set(7, "k")` through it succeeds, and `r.Search("x", "y", "k")` then
gives `nil`, not 7, since `x` now leads to `A`, which has no key `y`.  The
handle `r.Search("x", "y")` obtained after the store wraps `nil`; `Set(7, "k")`
through it fails and `r.Search("x", "k")` is not 7 either.  On the same
document, let `A` be the Object at `x` and store it under `x`, `z`
(`loopHeap`): both paths lead to `A` afterwards, `Set(7, "z")` through
`r.Search("x")` succeeds, and `r.Search("x", "z", "z")` gives `nil`, not 7.  On
`knotHeap`, where the map at `x` holds itself under `x`, let `A` be the Object
at `y` and store it under `x`, `x`, `x`: the store succeeds, `y` still leads to
`A` and no cycle is left, but `x`, `x`, `x` does not lead to `A`, and after
`Set(7, "k")` through `r.Search("y")` the search of `x`, `x`, `x`, `k` gives
`nil`, not 7. -/
theorem Set_through_alias_counterexample :
    (((Container.mk (Value.map 0)).Search nestedHeap ["x", "y"]).Data = Value.map 2 ∧
      ((Container.mk (Value.map 0)).Set nestedHeap (Value.map 2) ["x"]).2
        = Outcome.returned none ∧
      (((Container.mk (Value.map 0)).Search nestedHeap ["x", "y"]).Set cutHeap
        (Value.number 7) ["k"]).2 = Outcome.returned none ∧
      ((Container.mk (Value.map 0)).Search
        (((Container.mk (Value.map 0)).Search nestedHeap ["x", "y"]).Set cutHeap
          (Value.number 7) ["k"]).1
        (["x", "y"] ++ ["k"])).Data ≠ Value.number 7 ∧
      (((Container.mk (Value.map 0)).Search cutHeap ["x", "y"]).Set cutHeap
        (Value.number 7) ["k"]).2
        = Outcome.returned (some "target object was not found in structure") ∧
      ((Container.mk (Value.map 0)).Search
        (((Container.mk (Value.map 0)).Search cutHeap ["x", "y"]).Set cutHeap
          (Value.number 7) ["k"]).1
        (["x"] ++ ["k"])).Data ≠ Value.number 7) ∧
    (((Container.mk (Value.map 0)).Search nestedHeap ["x"]).Data = Value.map 1 ∧
      ((Container.mk (Value.map 0)).Set nestedHeap (Value.map 1) ["x", "z"]).2
        = Outcome.returned none ∧
      ((Container.mk (Value.map 0)).Search loopHeap ["x"]).Data = Value.map 1 ∧
      ((Container.mk (Value.map 0)).Search loopHeap ["x", "z"]).Data = Value.map 1 ∧
      (((Container.mk (Value.map 0)).Search loopHeap ["x"]).Set loopHeap
        (Value.number 7) ["z"]).2 = Outcome.returned none ∧
      ((Container.mk (Value.map 0)).Search
        (((Container.mk (Value.map 0)).Search loopHeap ["x"]).Set loopHeap
          (Value.number 7) ["z"]).1
        (["x", "z"] ++ ["z"])).Data ≠ Value.number 7) ∧
    (((Container.mk (Value.map 0)).Search knotHeap ["y"]).Data = Value.map 2 ∧
      ((Container.mk (Value.map 0)).Set knotHeap (Value.map 2) ["x", "x", "x"]).2
        = Outcome.returned none ∧
      ((Container.mk (Value.map 0)).Search untiedHeap ["y"]).Data = Value.map 2 ∧
      ((Container.mk (Value.map 0)).Search untiedHeap ["x", "x", "x"]).Data = Value.nil ∧
      (((Container.mk (Value.map 0)).Search untiedHeap ["y"]).Set untiedHeap
        (Value.number 7) ["k"]).2 = Outcome.returned none ∧
      ((Container.mk (Value.map 0)).Search
        (((Container.mk (Value.map 0)).Search untiedHeap ["y"]).Set untiedHeap
          (Value.number 7) ["k"]).1
        (["x", "x", "x"] ++ ["k"])).Data ≠ Value.number 7) := by
  decide

/-- C16, amended: let `A` be the Object `r.Search(P).Data()` and let `r.Set(A, Q)`
succeed, on a structure in which no map reachable from `r` is reachable from
itself, before the store and after it; let `P` still lead to `A` after the
store.  Then after the store `Q` leads to the very Object `P` led to, `Set(v, k)`
through the handle `r.Search(P)` succeeds, and it makes
`r.Search(P, k).Data()` and `r.Search(Q, k).Data()` both `v`. -/
theorem Set_through_alias (h : Heap) (r : Container) (P Q : List String) (k : String)
    (v : Value) (a : Nat)
    (hA : (r.Search h P).Data = Value.map a)
    (hstore : (r.Set h (Value.map a) Q).2 = Outcome.returned none)
    (hbefore : Acyclic h r.object)
    (hP : (r.Search (r.Set h (Value.map a) Q).1 P).Data = Value.map a)
    (hafter : Acyclic (r.Set h (Value.map a) Q).1 r.object) :
    (r.Search (r.Set h (Value.map a) Q).1 Q).Data = (r.Search h P).Data ∧
      ((r.Search (r.Set h (Value.map a) Q).1 P).Set (r.Set h (Value.map a) Q).1 v [k]).2
        = Outcome.returned none ∧
      (r.Search
        ((r.Search (r.Set h (Value.map a) Q).1 P).Set (r.Set h (Value.map a) Q).1 v [k]).1
        (P ++ [k])).Data = v ∧
      (r.Search
        ((r.Search (r.Set h (Value.map a) Q).1 P).Set (r.Set h (Value.map a) Q).1 v [k]).1
        (Q ++ [k])).Data = v := by
  obtain ⟨ks, kq, p, hQsplit, hp⟩ := Set_ok_inv h r (Value.map a) Q hstore
  subst hQsplit
  have hQ : searchLoop (r.Set h (Value.map a) (ks ++ [kq])).1 r.object (ks ++ [kq])
      = Value.map a :=
    (Set_concat_then_search h r (Value.map a) ks kq p hp
      (readsEntry_false_of_acyclic h r.object ks p kq hbefore hp)).2.1
  generalize (r.Set h (Value.map a) (ks ++ [kq])).1 = h1 at hP hQ hafter ⊢
  simp only [Container.Search, Container.Data] at hA hP ⊢
  have hset : (Container.mk (searchLoop h1 r.object P)).Set h1 v [k]
      = (h1.assign a k v, Outcome.returned none) := by
    have := Set_concat_map h1 ⟨searchLoop h1 r.object P⟩ v [] k a
      (by rw [searchLoop_empty]; exact hP)
    simpa using this
  rw [hset]
  exact ⟨by rw [hQ, hA], rfl,
    searchLoop_assign_target h1 a k v r.object P hP
      (readsEntry_false_of_acyclic h1 r.object P a k hafter hP),
    searchLoop_assign_target h1 a k v r.object (ks ++ [kq]) hQ
      (readsEntry_false_of_acyclic h1 r.object (ks ++ [kq]) a k hafter hQ)⟩

theorem Set_through_alias_witness :
    ((Container.mk (Value.map 0)).Search sampleHeap ["test"]).Data = Value.map 1 ∧
      ((Container.mk (Value.map 0)).Set sampleHeap (Value.map 1) ["test2"]).2
        = Outcome.returned none ∧
      ((Container.mk (Value.map 0)).Search
        ((Container.mk (Value.map 0)).Set sampleHeap (Value.map 1) ["test2"]).1
        ["test2"]).Data
        = ((Container.mk (Value.map 0)).Search sampleHeap ["test"]).Data ∧
      ((Container.mk (Value.map 0)).Search
        (((Container.mk (Value.map 0)).Search
            ((Container.mk (Value.map 0)).Set sampleHeap (Value.map 1) ["test2"]).1
            ["test"]).Set
          ((Container.mk (Value.map 0)).Set sampleHeap (Value.map 1) ["test2"]).1
          (Value.number 6) ["value"]).1
        (["test2"] ++ ["value"])).Data = Value.number 6 :=
  ⟨by decide, by decide,
    (Set_through_alias sampleHeap ⟨Value.map 0⟩ ["test"] ["test2"] "value" (Value.number 6) 1
      (by decide) (by decide) sampleHeap_acyclic (by decide) sharedHeap_acyclic).1,
    (Set_through_alias sampleHeap ⟨Value.map 0⟩ ["test"] ["test2"] "value" (Value.number 6) 1
      (by decide) (by decide) sampleHeap_acyclic (by decide) sharedHeap_acyclic).2.2.2⟩

/-! ## Serializing -/

theorem collect_map_mono {α : Type} (f g : α → Option String) (xs : List α)
    (hfg : ∀ x s, x ∈ xs → f x = some s → g x = some s) (parts : List String)
    (hc : collect (xs.map f) = some parts) : collect (xs.map g) = some parts := by
  induction xs generalizing parts with
  | nil => simpa [collect] using hc
  | cons x xs ih =>
    simp only [List.map_cons] at hc ⊢
    cases hf : f x with
    | none => simp [hf, collect] at hc
    | some s =>
      rw [hf] at hc
      rw [hfg x s (List.mem_cons_self x xs) hf]
      simp only [collect] at hc ⊢
      cases hr : collect (xs.map f) with
      | none => simp [hr] at hc
      | some ss =>
        rw [hr] at hc
        rw [ih (fun y t hy => hfg y t (List.mem_cons_of_mem x hy)) ss hr]
        exact hc

/-- An encoding found within `d` levels is found within `d + 1` levels. -/
theorem marshalWith_succ (order : Obj → Obj) (h : Heap) (d : Nat) (v : Value) (s : String)
    (hs : marshalWith order h d v = some s) : marshalWith order h (d + 1) v = some s := by
  induction d generalizing v s with
  | zero => simp [marshalWith] at hs
  | succ d ih =>
    cases v with
    | nil => simpa [marshalWith] using hs
    | nilMap => simpa [marshalWith] using hs
    | bool b => simpa [marshalWith] using hs
    | number n => simpa [marshalWith] using hs
    | string t => simpa [marshalWith] using hs
    | slice elems =>
      simp only [marshalWith, Option.map_eq_some'] at hs ⊢
      obtain ⟨parts, hc, hp⟩ := hs
      exact ⟨parts, collect_map_mono _ _ elems (fun x t _ hx => ih x t hx) parts hc, hp⟩
    | map r =>
      simp only [marshalWith, Option.map_eq_some'] at hs ⊢
      obtain ⟨parts, hc, hp⟩ := hs
      refine ⟨parts, collect_map_mono _ _ (order (h.maps r)) ?_ parts hc, hp⟩
      intro e t _ he
      simp only [Option.map_eq_some'] at he ⊢
      obtain ⟨u, hu, hut⟩ := he
      exact ⟨u, ih e.2 u hu, hut⟩

theorem marshalWith_add (order : Obj → Obj) (h : Heap) (d m : Nat) (v : Value) (s : String)
    (hs : marshalWith order h d v = some s) : marshalWith order h (d + m) v = some s := by
  induction m with
  | zero => exact hs
  | succ m ih => exact marshalWith_succ order h (d + m) v s ih

/-- C11, counterexample: after the calls of `TestCreation` the keys of the inner
Object were added in the order `first`, `second`, `array`, while the string
that `String()` gives on the root, the one the test expects, lists them in the
order `array`, `first`, `second`; the encoding with the fields in the order in
which they were inserted is another string. -/
theorem creation_order_counterexample :
    (creationSession.heap.maps 2).map Prod.fst = ["first", "second", "array"] ∧
      (sortEntries (creationSession.heap.maps 2)).map Prod.fst
        = ["array", "first", "second"] ∧
      (Container.mk (Value.map 0)).String (jsonMarshal 5) creationSession.heap
        = creationExpected ∧
      marshalWith id creationSession.heap 5 (Value.map 0) ≠ some creationExpected := by
  decide

/-- C11, amended: started on the root of `{}`, the calls of `TestCreation` leave
three handles (root, `test`, `inner`) and the tree
`{test:{inner:{first:10, second:20, array:["first element of the array", 2,
"three"]}}}`, and `String()` on the root, with an encoder that handles five or
more levels of nesting, gives exactly the expected string, in which the fields
of the inner Object come sorted by key: `array`, `first`, `second`. -/
theorem creation_result (m : Nat) :
    creationSession.handles = [⟨Value.map 0⟩, ⟨Value.map 1⟩, ⟨Value.map 2⟩] ∧
      creationSession.heap.maps 0 = [("test", Value.map 1)] ∧
      creationSession.heap.maps 1 = [("inner", Value.map 2)] ∧
      creationSession.heap.maps 2 =
        [("first", Value.number 10), ("second", Value.number 20),
          ("array", Value.slice [Value.string "first element of the array", Value.number 2,
            Value.string "three"])] ∧
      (Container.mk (Value.map 0)).String (jsonMarshal (5 + m)) creationSession.heap
        = creationExpected ∧
      (sortEntries (creationSession.heap.maps 2)).map Prod.fst
        = ["array", "first", "second"] := by
  have hbase : marshalWith sortEntries creationSession.heap 5 (Value.map 0)
      = some creationExpected := by decide
  have hall := marshalWith_add sortEntries creationSession.heap 5 m (Value.map 0)
    creationExpected hbase
  refine ⟨rfl, by decide, by decide, by decide, ?_, by decide⟩
  simp only [Container.String, jsonMarshal, hall]

/-! ## The methods on pointers -/

theorem Prog.heapSame_pure {α : Type} (a : α) : (Prog.pure a).HeapSame :=
  fun _ => rfl

theorem Prog.heapSame_bind {α β : Type} (p : Prog α) (f : α → Prog β)
    (hp : p.HeapSame) (hf : ∀ a, (f a).HeapSame) : (Prog.bind p f).HeapSame := by
  intro m
  have h1 := hp m
  simp only [Prog.bind]
  rcases hpm : p m with ⟨m1, o⟩
  rw [hpm] at h1
  cases o with
  | returned a => exact (hf a m1).trans h1
  | panicked msg => exact h1

theorem Prog.keeps_pure {α : Type} (a : α) : (Prog.pure a).Keeps :=
  fun _ _ _ hj => hj

theorem Prog.keeps_bind {α β : Type} (p : Prog α) (f : α → Prog β)
    (hp : p.Keeps) (hf : ∀ a, (f a).Keeps) : (Prog.bind p f).Keeps := by
  intro m j c hj
  have h1 := hp m j c hj
  simp only [Prog.bind]
  rcases hpm : p m with ⟨m1, o⟩
  rw [hpm] at h1
  cases o with
  | returned a => exact hf a m1 j c h1
  | panicked msg => exact h1

theorem loadObject_heapSame (g : Nat) : (loadObject g).HeapSame := by
  intro m
  simp only [loadObject]
  cases m.containers[g]? <;> rfl

theorem loadObject_keeps (g : Nat) : (loadObject g).Keeps := by
  intro m j c hj
  simp only [loadObject]
  cases m.containers[g]? <;> exact hj

theorem newContainer_heapSame (object : Value) : (newContainer object).HeapSame :=
  fun _ => rfl

theorem newContainer_keeps (object : Value) : (newContainer object).Keeps := by
  intro m j c hj
  have hlt : j < m.containers.length := by
    rcases Nat.lt_or_ge j m.containers.length with hlt | hge
    · exact hlt
    · rw [List.getElem?_eq_none hge] at hj
      cases hj
  simp only [newContainer]
  rw [List.getElem?_append_left hlt]
  exact hj

theorem indexMap_heapSame (mmap : Value) (k : String) : (indexMap mmap k).HeapSame := by
  intro m
  cases mmap <;> rfl

theorem indexMap_keeps (mmap : Value) (k : String) : (indexMap mmap k).Keeps := by
  intro m j c hj
  cases mmap <;> exact hj

theorem assignMap_keeps (mmap : Value) (k : String) (v : Value) :
    (assignMap mmap k v).Keeps := by
  intro m j c hj
  cases mmap <;> exact hj

theorem makeMap_keeps : makeMap.Keeps :=
  fun _ _ _ hj => hj

/-- The loop of `Search`, run as a program, leaves the memory as it was and
returns what `searchLoop` computes on the heap. -/
theorem Method.loop_eq (object : Value) (hierarchy : List String) (m : Memory) :
    Method.loop object hierarchy m
      = (m, Outcome.returned (searchLoop m.heap object hierarchy)) := by
  induction hierarchy generalizing object with
  | nil =>
    rw [searchLoop_empty]
    cases object <;> rfl
  | cons k ks ih =>
    cases object with
    | map r =>
      simp only [Method.loop, Prog.bind, indexMap, searchLoop]
      exact ih _
    | nilMap =>
      simp only [Method.loop, Prog.bind, indexMap, searchLoop]
      exact ih _
    | _ => rfl

theorem Method.loop_heapSame (object : Value) (hierarchy : List String) :
    (Method.loop object hierarchy).HeapSame := by
  intro m
  rw [Method.loop_eq]

theorem Method.loop_keeps (object : Value) (hierarchy : List String) :
    (Method.loop object hierarchy).Keeps := by
  intro m j c hj
  rw [Method.loop_eq]
  exact hj

theorem Method.Search_heapSame (g : Nat) (hierarchy : List String) :
    (Method.Search g hierarchy).HeapSame :=
  Prog.heapSame_bind _ _ (loadObject_heapSame g) (fun object =>
    Prog.heapSame_bind _ _ (Method.loop_heapSame object hierarchy) newContainer_heapSame)

theorem Method.Search_keeps (g : Nat) (hierarchy : List String) :
    (Method.Search g hierarchy).Keeps :=
  Prog.keeps_bind _ _ (loadObject_keeps g) (fun object =>
    Prog.keeps_bind _ _ (Method.loop_keeps object hierarchy) newContainer_keeps)

/-- What `Search` through a pointer does: it allocates one Container, wrapping
what `Search` computes from the Container the pointer leads to, and returns
the pointer to it. -/
theorem Method.Search_eq (m : Memory) (g : Nat) (c : Container) (hierarchy : List String)
    (hg : m.containers[g]? = some c) :
    Method.Search g hierarchy m
      = (⟨m.heap, m.containers ++ [c.Search m.heap hierarchy]⟩,
          Outcome.returned m.containers.length) := by
  simp only [Method.Search, Prog.bind, loadObject, hg, Method.loop_eq, newContainer,
    Container.Search]

theorem Method.Set_keeps (g : Nat) (value : Value) (hierarchy : List String) :
    (Method.Set g value hierarchy).Keeps := by
  unfold Method.Set
  split
  · exact Prog.keeps_pure _
  · refine Prog.keeps_bind _ _ (Method.Search_keeps g _) (fun c => ?_)
    refine Prog.keeps_bind _ _ (loadObject_keeps c) (fun parent => ?_)
    cases parent.isObject
    · exact Prog.keeps_pure _
    · exact Prog.keeps_bind _ _ (assignMap_keeps _ _ _) (fun _ => Prog.keeps_pure _)

theorem Method.Push_keeps (g : Nat) (value : Value) (hierarchy : List String) :
    (Method.Push g value hierarchy).Keeps := by
  unfold Method.Push
  split
  · exact Prog.keeps_pure _
  · refine Prog.keeps_bind _ _ (Method.Search_keeps g _) (fun c => ?_)
    refine Prog.keeps_bind _ _ (loadObject_keeps c) (fun parent => ?_)
    cases parent.isObject
    · exact Prog.keeps_pure _
    · refine Prog.keeps_bind _ _ (indexMap_keeps _ _) (fun target => ?_)
      cases target with
      | slice array =>
        exact Prog.keeps_bind _ _ (assignMap_keeps _ _ _) (fun _ => Prog.keeps_pure _)
      | _ => exact Prog.keeps_pure _

theorem Method.CreateObject_keeps (g : Nat) (name : String) :
    (Method.CreateObject g name).Keeps := by
  unfold Method.CreateObject
  refine Prog.keeps_bind _ _ (loadObject_keeps g) (fun object => ?_)
  cases object.isObject
  · exact newContainer_keeps _
  · exact Prog.keeps_bind _ _ makeMap_keeps (fun fresh =>
      Prog.keeps_bind _ _ (assignMap_keeps _ _ _) (fun _ =>
        Prog.keeps_bind _ _ (indexMap_keeps _ _) (fun stored => newContainer_keeps stored)))

theorem Method.CreateArray_keeps (g : Nat) (name : String) :
    (Method.CreateArray g name).Keeps := by
  unfold Method.CreateArray
  refine Prog.keeps_bind _ _ (loadObject_keeps g) (fun object => ?_)
  cases object.isObject
  · exact Prog.keeps_pure _
  · exact Prog.keeps_bind _ _ (assignMap_keeps _ _ _) (fun _ => Prog.keeps_pure _)

theorem Method.call_keeps (call : Call) : (Method.call call).Keeps := by
  cases call with
  | search g hierarchy =>
    exact Prog.keeps_bind _ _ (Method.Search_keeps g hierarchy) (fun _ => Prog.keeps_pure _)
  | data g =>
    exact Prog.keeps_bind _ _ (loadObject_keeps g) (fun _ => Prog.keeps_pure _)
  | set g value hierarchy =>
    exact Prog.keeps_bind _ _ (Method.Set_keeps g value hierarchy) (fun _ => Prog.keeps_pure _)
  | push g value hierarchy =>
    exact Prog.keeps_bind _ _ (Method.Push_keeps g value hierarchy) (fun _ => Prog.keeps_pure _)
  | createObject g name =>
    exact Prog.keeps_bind _ _ (Method.CreateObject_keeps g name) (fun _ => Prog.keeps_pure _)
  | createArray g name =>
    exact Prog.keeps_bind _ _ (Method.CreateArray_keeps g name) (fun _ => Prog.keeps_pure _)

/-- The Container `Search` allocates is read back through the pointer it
returns. -/
theorem Method.Data_after_Search (m : Memory) (g : Nat) (c : Container)
    (hierarchy : List String) (hg : m.containers[g]? = some c) :
    Method.Data m.containers.length (Method.Search g hierarchy m).1
      = ((Method.Search g hierarchy m).1,
          Outcome.returned (searchLoop m.heap c.object hierarchy)) := by
  rw [Method.Search_eq m g c hierarchy hg]
  simp [Method.Data, loadObject, Container.Search]

/-- `Set` through a pointer leaves the heap that `Set` computes from the
Container the pointer leads to, and ends the same way. -/
theorem Method.Set_eq (m : Memory) (g : Nat) (c : Container) (value : Value)
    (hierarchy : List String) (hg : m.containers[g]? = some c) :
    (Method.Set g value hierarchy m).1.heap = (c.Set m.heap value hierarchy).1 ∧
      (Method.Set g value hierarchy m).2 = (c.Set m.heap value hierarchy).2 := by
  by_cases hlen : hierarchy.length ≤ 0
  · simp [Method.Set, Container.Set, hlen, Prog.pure]
  · have hd := Method.Data_after_Search m g c (hierarchy.take (hierarchy.length - 1)) hg
    have hs := Method.Search_eq m g c (hierarchy.take (hierarchy.length - 1)) hg
    simp only [Method.Set, Container.Set, hlen, if_false, Prog.bind, hs, Container.Search,
      Container.Data] at hd ⊢
    rw [hd]
    cases searchLoop m.heap c.object (hierarchy.take (hierarchy.length - 1)) <;>
      simp [Value.isObject, Prog.pure, Prog.bind, assignMap]

/-- `Push` through a pointer leaves the heap that `Push` computes from the
Container the pointer leads to, and returns the same error. -/
theorem Method.Push_eq (m : Memory) (g : Nat) (c : Container) (value : Value)
    (hierarchy : List String) (hg : m.containers[g]? = some c) :
    (Method.Push g value hierarchy m).1.heap = (c.Push m.heap value hierarchy).1 ∧
      (Method.Push g value hierarchy m).2
        = Outcome.returned (c.Push m.heap value hierarchy).2 := by
  by_cases hlen : hierarchy.length ≤ 0
  · simp [Method.Push, Container.Push, hlen, Prog.pure]
  · have hd := Method.Data_after_Search m g c (hierarchy.take (hierarchy.length - 1)) hg
    have hs := Method.Search_eq m g c (hierarchy.take (hierarchy.length - 1)) hg
    simp only [Method.Push, Container.Push, hlen, if_false, Prog.bind, hs, Container.Search,
      Container.Data] at hd ⊢
    rw [hd]
    generalize hierarchy.getD (hierarchy.length - 1) "" = key
    cases hp : searchLoop m.heap c.object (hierarchy.take (hierarchy.length - 1)) with
    | map r =>
      cases ht : Obj.get (m.heap.maps r) key <;>
        simp [Value.isObject, Prog.pure, Prog.bind, indexMap, assignMap, ht]
    | _ => simp [Value.isObject, Prog.pure, Prog.bind, indexMap]

/-- `CreateArray` through a pointer leaves the heap that `CreateArray` computes
from the Container the pointer leads to, and ends the same way. -/
theorem Method.CreateArray_eq (m : Memory) (g : Nat) (c : Container) (name : String)
    (hg : m.containers[g]? = some c) :
    (Method.CreateArray g name m).1.heap = (c.CreateArray m.heap name).1 ∧
      (Method.CreateArray g name m).2 = (c.CreateArray m.heap name).2 := by
  simp only [Method.CreateArray, Container.CreateArray, Method.Data, loadObject, hg,
    Prog.bind, Container.Data]
  cases c.object <;> simp [Value.isObject, Prog.pure, Prog.bind, assignMap]

/-- `CreateObject` through a pointer leaves the heap that `CreateObject`
computes from the Container the pointer leads to; when that one returns a
Container, the pointer returned leads to it, and when it panics, so does this. -/
theorem Method.CreateObject_eq (m : Memory) (g : Nat) (c : Container) (name : String)
    (hg : m.containers[g]? = some c) :
    (Method.CreateObject g name m).1.heap = (c.CreateObject m.heap name).1 ∧
      (∀ made : Container, (c.CreateObject m.heap name).2 = Outcome.returned made →
        (Method.CreateObject g name m).2 = Outcome.returned m.containers.length ∧
        (Method.CreateObject g name m).1.containers = m.containers ++ [made]) ∧
      (∀ msg : String, (c.CreateObject m.heap name).2 = Outcome.panicked msg →
        (Method.CreateObject g name m).2 = Outcome.panicked msg) := by
  simp only [Method.CreateObject, Container.CreateObject, Method.Data, loadObject, hg,
    Prog.bind, Container.Data]
  cases c.object <;>
    simp [Value.isObject, Prog.pure, Prog.bind, assignMap, makeMap, indexMap, newContainer]

/-- C15: run through any pointer and with any hierarchy, `Search` and `Data`
leave the heap as it was, so that the tree reachable from every handle is the
one from before the call, and every Container that existed, the receiver among
them, still wraps the value it wrapped; `Search` only allocates the Container
it returns, which wraps what `Search` computes, and `Data` returns the value
the receiver wraps. -/
theorem Search_Data_unchanged (m : Memory) (g : Nat) (hierarchy : List String) :
    (Method.Search g hierarchy m).1.heap = m.heap ∧
      (Method.Data g m).1.heap = m.heap ∧
      (∀ (j : Nat) (c : Container), m.containers[j]? = some c →
        (Method.Search g hierarchy m).1.containers[j]? = some c ∧
        (Method.Data g m).1.containers[j]? = some c) ∧
      (∀ c : Container, m.containers[g]? = some c →
        (Method.Search g hierarchy m).2 = Outcome.returned m.containers.length ∧
        (Method.Search g hierarchy m).1.containers[m.containers.length]?
          = some (c.Search m.heap hierarchy) ∧
        (Method.Data g m).2 = Outcome.returned c.Data) := by
  refine ⟨Method.Search_heapSame g hierarchy m, loadObject_heapSame g m, ?_, ?_⟩
  · intro j c hj
    exact ⟨Method.Search_keeps g hierarchy m j c hj, loadObject_keeps g m j c hj⟩
  · intro c hg
    rw [Method.Search_eq m g c hierarchy hg]
    refine ⟨rfl, ?_, ?_⟩
    · simp
    · simp [Method.Data, loadObject, hg, Container.Data]

/-- C20: when the root handle, a pointer to a Container that wraps an Object,
exists, then after any finite sequence of `Search`, `Data`, `Set`, `Push`,
`CreateObject` and `CreateArray` calls, through any pointers and with any
arguments, returning, failing or panicking, the root handle still leads to
that Container, which wraps an Object. -/
theorem root_stays_object (m : Memory) (calls : List Call) (root : Nat) (c : Container)
    (hroot : m.containers[root]? = some c) (hobject : c.Data.isObject = true) :
    (m.run calls).containers[root]? = some c ∧
      ∀ c1 : Container, (m.run calls).containers[root]? = some c1 →
        c1.Data.isObject = true := by
  have hkeep : (m.run calls).containers[root]? = some c := by
    induction calls generalizing m with
    | nil => exact hroot
    | cons call calls ih =>
      simp only [Memory.run, List.foldl_cons]
      exact ih (Method.call call m).1 (Method.call_keeps call m root c hroot)
  refine ⟨hkeep, ?_⟩
  intro c1 hc1
  rw [hkeep] at hc1
  cases hc1
  exact hobject

theorem root_stays_object_witness :
    (Memory.mk emptyHeap [⟨Value.map 0⟩]).containers[0]? = some ⟨Value.map 0⟩ ∧
      (Container.mk (Value.map 0)).Data.isObject = true ∧
      ((Memory.mk emptyHeap [⟨Value.map 0⟩]).run
        [Call.createObject 0 "test", Call.set 1 (Value.map 0) ["back"],
          Call.set 0 (Value.number 1) [], Call.push 0 (Value.number 1) ["test"],
          Call.set 0 Value.nilMap ["m"], Call.set 0 (Value.number 1) ["m", "k"],
          Call.search 0 ["test", "back"], Call.createArray 2 "test"]).containers[0]?
        = some ⟨Value.map 0⟩ :=
  ⟨rfl, rfl,
    (root_stays_object (Memory.mk emptyHeap [⟨Value.map 0⟩])
      [Call.createObject 0 "test", Call.set 1 (Value.map 0) ["back"],
        Call.set 0 (Value.number 1) [], Call.push 0 (Value.number 1) ["test"],
        Call.set 0 Value.nilMap ["m"], Call.set 0 (Value.number 1) ["m", "k"],
        Call.search 0 ["test", "back"], Call.createArray 2 "test"] 0 ⟨Value.map 0⟩
      rfl rfl).1⟩

end Gabs
